import Mathlib

/-!
Verification of the media_organizer plan/apply pipeline.

Shallow embedding of the Rust sources in `src/`:
  classify.rs, time.rs, photo.rs, video.rs, dvd.rs, plan.rs, apply.rs, main.rs.

Filesystem paths are modelled as their component lists (`FsPath`); the external
collaborators (file open, EXIF container reader, ffprobe subprocess, filesystem
metadata, content hashing input, DVD VOB enumeration) are modelled as an
explicit environment (`Env`) of oracles, so that the pure control flow of the
Rust code — in particular which collaborator failures propagate as `?` errors
and which are swallowed — is reproduced exactly.
-/

namespace MediaOrg

/-- A filesystem path, as its list of components (Rust `Path` / `PathBuf`). -/
abbrev FsPath := List String

/-- Rust `to_ascii_lowercase` on a string (Lean `Char.toLower` is ASCII-only,
matching the Rust call). Implemented on the character list so it evaluates in
the kernel. -/
def asciiLower (s : String) : String := String.mk (s.data.map Char.toLower)

/-- Rust `Path::to_string_lossy` for a path built from components: the
components joined by the separator. -/
def pathToString : FsPath → String
  | [] => ""
  | [c] => c
  | c :: rest => c ++ "/" ++ pathToString rest

/-- Rust `rsplit_file_at_dot` semantics shared by `Path::file_stem` and
`Path::extension`: split the final component at its last dot; a name whose only
dot is the leading character (".foo"), or with no dot, has no extension. A name
ending in a dot has the empty extension, as in Rust. -/
def splitLastDot (name : String) : String × Option String :=
  let cs := name.data
  match cs.reverse.findIdx? (fun c => c == '.') with
  | none => (name, none)
  | some j =>
    let i := cs.length - 1 - j
    if i = 0 then (name, none)
    else (String.mk (cs.take i), some (String.mk (cs.drop (i + 1))))

/-- Rust `Path::file_name` (the walker never yields `..`-terminated paths). -/
def fileNameOf (p : FsPath) : Option String := p.getLast?

/-- Rust `Path::extension`. -/
def extensionOf (p : FsPath) : Option String :=
  p.getLast?.bind (fun n => (splitLastDot n).2)

/-! classify.rs -/

/-- classify.rs `Kind`. -/
inductive Kind
  | photo
  | video
  | dvd
  | ignore
deriving DecidableEq, Repr

/-- classify.rs `normalize_extension`: the lower-cased extension. -/
def normalize_extension (p : FsPath) : Option String :=
  (extensionOf p).map asciiLower

/-- classify.rs `classify`: media kind from the lower-cased extension. -/
def classify (p : FsPath) : Kind :=
  match normalize_extension p with
  | some "jpg" | some "jpeg" | some "png" => Kind.photo
  | some "mp4" | some "avi" | some "mov" | some "m4v" => Kind.video
  | some "vob" | some "ifo" | some "bup" => Kind.dvd
  | _ => Kind.ignore

/-- classify.rs `is_jpeg`. -/
def is_jpeg (p : FsPath) : Bool :=
  match normalize_extension p with
  | some "jpg" | some "jpeg" => true
  | _ => false

/-! Timestamps.  chrono's `NaiveDateTime` is modelled by its six calendar
fields; the formatting and parsing the code delegates to chrono is embedded
below. -/

/-- A wall-clock timestamp (chrono `NaiveDateTime`). -/
structure DateTime where
  year : Nat
  month : Nat
  day : Nat
  hour : Nat
  minute : Nat
  second : Nat
deriving DecidableEq, Repr

/-- Decimal digit character. -/
def digitChar (d : Nat) : Char := Char.ofNat (48 + d)

/-- Decimal digits of a number, most significant first; fuel-structured so it
evaluates in the kernel. The fuel `n + 1` always suffices. -/
def natDigitsAux : Nat → Nat → List Char
  | 0, _ => []
  | fuel + 1, n =>
    if n < 10 then [digitChar n]
    else natDigitsAux fuel (n / 10) ++ [digitChar (n % 10)]

/-- Decimal representation of a natural number. -/
def natStr (n : Nat) : String := String.mk (natDigitsAux (n + 1) n)

/-- Zero-pad on the left to width `w` (chrono's padded numeric formatting). -/
def padZeros (w : Nat) (s : String) : String :=
  String.mk (List.replicate (w - s.data.length) '0' ++ s.data)

/-- chrono `%Y`. -/
def fmt4 (n : Nat) : String := padZeros 4 (natStr n)

/-- chrono `%m`, `%d`, `%H`, `%M`, `%S`. -/
def fmt2 (n : Nat) : String := padZeros 2 (natStr n)

/-- chrono format `%Y` of a date. -/
def fmtYear (dt : DateTime) : String := fmt4 dt.year

/-- chrono format `%Y-%m` of a date. -/
def fmtYearMonth (dt : DateTime) : String :=
  fmt4 dt.year ++ "-" ++ fmt2 dt.month

/-- chrono format `%Y-%m-%d` of a date. -/
def fmtYMD (dt : DateTime) : String :=
  fmt4 dt.year ++ "-" ++ fmt2 dt.month ++ "-" ++ fmt2 dt.day

/-- time.rs `format_dt`: chrono `%Y-%m-%d %H:%M:%S`. -/
def format_dt (dt : DateTime) : String :=
  fmtYMD dt ++ " " ++ fmt2 dt.hour ++ ":" ++ fmt2 dt.minute ++ ":" ++ fmt2 dt.second

/-- Parse exactly `k` decimal digits into a number, returning the rest. -/
def parseNatFixed : Nat → Nat → List Char → Option (Nat × List Char)
  | 0, acc, cs => some (acc, cs)
  | k + 1, acc, c :: cs =>
    if c.isDigit then parseNatFixed k (acc * 10 + (c.toNat - 48)) cs else none
  | _ + 1, _, [] => none

/-- Consume one expected character. -/
def expectChar (c : Char) : List Char → Option (List Char)
  | d :: cs => if d == c then some cs else none
  | [] => none

/-- Gregorian leap year. -/
def isLeap (y : Nat) : Bool := (y % 4 == 0 && y % 100 != 0) || y % 400 == 0

/-- Days in a month of a year. -/
def daysInMonth (y m : Nat) : Nat :=
  match m with
  | 1 => 31 | 2 => if isLeap y then 29 else 28 | 3 => 31 | 4 => 30
  | 5 => 31 | 6 => 30 | 7 => 31 | 8 => 31 | 9 => 30 | 10 => 31
  | 11 => 30 | 12 => 31
  | _ => 0

/-- Calendar validity, as checked by chrono's parsers. -/
def validDate (y m d : Nat) : Bool :=
  1 ≤ m && m ≤ 12 && 1 ≤ d && d ≤ daysInMonth y m

/-- Time-of-day validity (leap seconds are not modelled at this boundary). -/
def validTime (h mi s : Nat) : Bool := h ≤ 23 && mi ≤ 59 && s ≤ 59

/-- chrono `NaiveDateTime::parse_from_str` with pattern `%Y:%m:%d %H:%M:%S`,
as used on EXIF ASCII values (photo.rs `parse_exif_datetime`). -/
def parseExifFormat (s : String) : Option DateTime := do
  let (y, cs) ← parseNatFixed 4 0 s.data
  let cs ← expectChar ':' cs
  let (m, cs) ← parseNatFixed 2 0 cs
  let cs ← expectChar ':' cs
  let (d, cs) ← parseNatFixed 2 0 cs
  let cs ← expectChar ' ' cs
  let (hh, cs) ← parseNatFixed 2 0 cs
  let cs ← expectChar ':' cs
  let (mi, cs) ← parseNatFixed 2 0 cs
  let cs ← expectChar ':' cs
  let (ss, cs) ← parseNatFixed 2 0 cs
  if cs.isEmpty && validDate y m d && validTime hh mi ss then
    pure (DateTime.mk y m d hh mi ss)
  else none

/-- Consume an optional RFC3339 fractional-second part (a dot followed by at
least one digit). -/
def skipFrac : List Char → Option (List Char)
  | '.' :: rest =>
    if (rest.head?.map Char.isDigit).getD false then some (rest.dropWhile Char.isDigit)
    else none
  | cs => some cs

/-- Check an RFC3339 offset suffix (`Z`, `z`, or a signed `HH:MM`). -/
def validOffset : List Char → Bool
  | ['Z'] => true
  | ['z'] => true
  | c :: rest =>
    if c == '+' || c == '-' then
      match parseNatFixed 2 0 rest with
      | some (ho, cs) =>
        match expectChar ':' cs with
        | some cs2 =>
          match parseNatFixed 2 0 cs2 with
          | some (mo, []) => ho ≤ 23 && mo ≤ 59
          | _ => false
        | none => false
      | none => false
    else false
  | [] => false

/-- chrono `DateTime::parse_from_rfc3339` followed by `.naive_local()`, as used
on the probe's `creation_time` tag (video.rs): the wall-clock fields are those
written in the string, in the string's own offset. -/
def parseRfc3339 (s : String) : Option DateTime := do
  let (y, cs) ← parseNatFixed 4 0 s.data
  let cs ← expectChar '-' cs
  let (m, cs) ← parseNatFixed 2 0 cs
  let cs ← expectChar '-' cs
  let (d, cs) ← parseNatFixed 2 0 cs
  let sep ← cs.head?
  if sep == 'T' || sep == 't' || sep == ' ' then do
    let cs := cs.tail
    let (hh, cs) ← parseNatFixed 2 0 cs
    let cs ← expectChar ':' cs
    let (mi, cs) ← parseNatFixed 2 0 cs
    let cs ← expectChar ':' cs
    let (ss, cs) ← parseNatFixed 2 0 cs
    let cs ← skipFrac cs
    if validOffset cs && validDate y m d && validTime hh mi ss then
      pure (DateTime.mk y m d hh mi ss)
    else none
  else none

/-- Rust `str::trim` (the ASCII whitespace predicate models the call at this
boundary). -/
def trimChars (s : String) : String :=
  String.mk (((s.data.dropWhile Char.isWhitespace).reverse.dropWhile Char.isWhitespace).reverse)

/-! External collaborators.  photo.rs and video.rs call fallible collaborators
(`File::open`, the EXIF container reader, the `ffprobe` subprocess, filesystem
metadata); these are modelled as oracles in an environment record. -/

/-- An EXIF field value (crate `exif::Value`): the `Ascii` variant carries the
decoded byte vectors (already `from_utf8_lossy`-decoded here). -/
inductive ExifValue
  | ascii (strs : List String)
  | other
deriving DecidableEq, Repr

/-- The two fields photo.rs reads from a parsed EXIF container. -/
structure ExifData where
  dateTimeOriginal : Option ExifValue
  dateTime : Option ExifValue
deriving DecidableEq, Repr

/-- Outcome of the `ffprobe` subprocess call in video.rs
(`Command::output()`, the exit status, and `serde_json::from_slice` of stdout,
then the navigation `format.tags.creation_time`). -/
inductive ProbeOutcome
  | spawnFail
  | statusFail
  | badJson
  | json (creationTime : Option String)
deriving DecidableEq, Repr

/-- The distinguishable error sources that plan-building code can propagate
(Rust `anyhow::Error`, tagged by origin). -/
inductive PlanError
  | exifOpen
  | probeSpawn
  | probeJson
  | dedupIo
  | dvdVobs
deriving DecidableEq, Repr

/-- The collaborator environment of one plan run: what each external call
would return for each path. -/
structure Env where
  openOk : FsPath → Bool
  exifData : FsPath → Option ExifData
  probe : FsPath → ProbeOutcome
  mtime : FsPath → Option DateTime
  fileContent : String → Option String
  fileSize : String → Option Nat
  dvdMainTitleVobs : FsPath → Except PlanError (List FsPath)

/-- photo.rs `parse_exif_datetime`: a non-empty `Ascii` value's first string,
trimmed, parsed with pattern `%Y:%m:%d %H:%M:%S`. -/
def parse_exif_datetime (v : ExifValue) : Option DateTime :=
  match v with
  | .ascii (s :: _) => parseExifFormat (trimChars s)
  | _ => none

/-- photo.rs `exif_capture_datetime`: `File::open(path)?` propagates an open
failure; a container-read failure is swallowed by `.ok()`; then
`DateTimeOriginal` and `DateTime` are tried in order. -/
def exif_capture_datetime (env : Env) (p : FsPath) : Except PlanError (Option DateTime) :=
  if env.openOk p then
    match env.exifData p with
    | some exif =>
      match exif.dateTimeOriginal.bind parse_exif_datetime with
      | some dt => .ok (some dt)
      | none =>
        match exif.dateTime.bind parse_exif_datetime with
        | some dt => .ok (some dt)
        | none => .ok none
    | none => .ok none
  else .error .exifOpen

/-- video.rs `ffprobe_creation_time`: `.output()?` propagates a spawn failure;
a non-success exit status yields `Ok(None)`; `serde_json::from_slice(...)?`
propagates a stdout-parse failure; a missing or unparseable `creation_time`
tag yields `Ok(None)`. -/
def ffprobe_creation_time (env : Env) (p : FsPath) : Except PlanError (Option DateTime) :=
  match env.probe p with
  | .spawnFail => .error .probeSpawn
  | .statusFail => .ok none
  | .badJson => .error .probeJson
  | .json ct => .ok (ct.bind parseRfc3339)

/-! time.rs -/

/-- time.rs `DateSource`. -/
inductive DateSource
  | exif
  | ffprobe
  | mtime
  | none
deriving DecidableEq, Repr

/-- time.rs `file_mtime` (filesystem metadata, an infallible-to-`Option`
oracle). -/
def file_mtime (env : Env) (p : FsPath) : Option DateTime := env.mtime p

/-- time.rs `best_datetime_for_file`: per-kind fallback chain; the `?` on
`exif_capture_datetime` and `ffprobe_creation_time` propagates their errors. -/
def best_datetime_for_file (env : Env) (p : FsPath) :
    Except PlanError (Option DateTime × DateSource) :=
  match classify p with
  | .photo =>
    (if is_jpeg p then exif_capture_datetime env p else .ok Option.none).bind fun exifDt =>
      match exifDt with
      | some dt => .ok (some dt, DateSource.exif)
      | Option.none =>
        match file_mtime env p with
        | some dt => .ok (some dt, DateSource.mtime)
        | Option.none => .ok (Option.none, DateSource.none)
  | .video =>
    (ffprobe_creation_time env p).bind fun probeDt =>
      match probeDt with
      | some dt => .ok (some dt, DateSource.ffprobe)
      | Option.none =>
        match file_mtime env p with
        | some dt => .ok (some dt, DateSource.mtime)
        | Option.none => .ok (Option.none, DateSource.none)
  | _ => .ok (Option.none, DateSource.none)

/-- time.rs `best_datetime_for_dvd`: only the modification time of the DVD
root is consulted; infallible. -/
def best_datetime_for_dvd (env : Env) (p : FsPath) : Option DateTime × DateSource :=
  match file_mtime env p with
  | some dt => (some dt, DateSource.mtime)
  | Option.none => (Option.none, DateSource.none)

/-! dvd.rs -/

/-- dvd.rs `is_inside_video_ts`: some path component equals `VIDEO_TS`
case-insensitively (Rust `eq_ignore_ascii_case`). -/
def is_inside_video_ts (p : FsPath) : Bool :=
  p.any (fun c => asciiLower c == "video_ts")

/-- dvd.rs `dvd_root_from_video_ts_dir`: a directory named `VIDEO_TS`
(case-insensitively) yields its parent. -/
def dvd_root_from_video_ts_dir (p : FsPath) : Option FsPath :=
  match p.getLast? with
  | some name => if asciiLower name == "video_ts" then some p.dropLast else none
  | Option.none => none

/-! plan.rs -/

/-- plan.rs `Action`. -/
inductive Action
  | copy
  | convertVideo
  | convertDvd
deriving DecidableEq, Repr

/-- plan.rs `MediaKind`. -/
inductive MediaKind
  | photo
  | video
  | dvd
deriving DecidableEq, Repr

/-- plan.rs `PlannedItem`. -/
structure PlannedItem where
  kind : MediaKind
  action : Action
  src : String
  dst : String
  best_dt : Option String
  date_source : DateSource
  size_bytes : Option Nat
  content_hash : Option String
  duplicate_of : Option String
deriving DecidableEq, Repr

/-- plan.rs `PlanSummary`. -/
structure PlanSummary where
  planned : Nat
  photos : Nat
  videos : Nat
  dvds : Nat
  missing_date : Nat
  need_convert_video : Nat
  need_convert_dvd : Nat
  duplicate_photos : Nat
  duplicate_videos : Nat
deriving DecidableEq, Repr

/-- plan.rs `PlanSummary::new`. -/
def PlanSummary.new : PlanSummary := ⟨0, 0, 0, 0, 0, 0, 0, 0, 0⟩

/-- plan.rs `safe_stem`: the file stem, defaulting to `"file"`. -/
def safe_stem (p : FsPath) : String :=
  ((p.getLast?).map (fun n => (splitLastDot n).1)).getD "file"

/-- plan.rs `plan_dst`: the pure destination-path function. -/
def plan_dst (out_root : FsPath) (kind : MediaKind) (src : FsPath)
    (best_dt : Option DateTime) : FsPath :=
  let base :=
    match kind with
    | .photo => out_root ++ ["Photos"]
    | .video => out_root ++ ["Videos"]
    | .dvd => out_root ++ ["DVDs"]
  let parts :=
    match best_dt with
    | some dt => (fmtYear dt, fmtYearMonth dt, fmtYMD dt)
    | Option.none => ("UnknownDate", "UnknownDate", "UnknownDate")
  let dir :=
    if parts.1 = "UnknownDate" then base ++ ["UnknownDate"]
    else base ++ [parts.1, parts.2.1, parts.2.2]
  let ext :=
    match kind with
    | .photo => (normalize_extension src).getD "jpg"
    | .video | .dvd => "mp4"
  let name :=
    match kind with
    | .dvd => (fileNameOf src).getD "DVD"
    | _ => safe_stem src
  dir ++ [name ++ "." ++ ext]

/-- plan.rs `action_for_video`: `avi` converts, everything else copies. -/
def action_for_video (p : FsPath) : Action :=
  match normalize_extension p with
  | some "avi" => Action.convertVideo
  | _ => Action.copy

/-- Byte-lexicographic (non-strict) comparison of character lists (Rust `Ord`
on `str`).  Used below only to state — and refute — the whole-path-string
reading of canonical selection. -/
def charListLe : List Char → List Char → Bool
  | [], _ => true
  | _ :: _, [] => false
  | a :: as, b :: bs =>
    if a.toNat < b.toNat then true
    else if b.toNat < a.toNat then false
    else charListLe as bs

/-- Byte-lexicographic comparison of whole strings. -/
def strLe (a b : String) : Bool := charListLe a.data b.data

/-- Byte-lexicographic strict comparison of character lists (Rust `Ord` on
`OsStr`, comparing one path component with another). -/
def charListLt : List Char → List Char → Bool
  | [], [] => false
  | [], _ :: _ => true
  | _ :: _, [] => false
  | a :: as, b :: bs =>
    if a.toNat < b.toNat then true
    else if b.toNat < a.toNat then false
    else charListLt as bs

/-- Splits a character list at the path separators. -/
def splitSlashAux : List Char → List Char → List (List Char)
  | [], cur => [cur.reverse]
  | c :: rest, cur =>
    if c = '/' then cur.reverse :: splitSlashAux rest []
    else splitSlashAux rest (c :: cur)

/-- Rust `Path::components()` of a path string as stored in `PlannedItem.src`:
its non-empty slash-separated pieces (the walker yields normalized paths, so
the `.`-component and root normalization of the Rust iterator does not
arise). -/
def splitPath (s : String) : List String :=
  ((splitSlashAux s.data []).filter (fun c => !c.isEmpty)).map String.mk

/-- Rust `Ord` on `Path`/`PathBuf`: lexicographic over the component list,
each component compared byte-wise — NOT byte order on the joined string (the
two differ, e.g. on `in/a.jpg` vs `in.x/a.jpg`). -/
def pathCompsLe : List String → List String → Bool
  | [], _ => true
  | _ :: _, [] => false
  | x :: xs, y :: ys =>
    if charListLt x.data y.data then true
    else if charListLt y.data x.data then false
    else pathCompsLe xs ys

/-- Rust's `PathBuf` order on the manifest's path strings. -/
def pathLe (a b : String) : Bool := pathCompsLe (splitPath a) (splitPath b)

/-- plan.rs `group.sort()` on the group's `Vec<PathBuf>`: Rust sorts by the
componentwise `Path` order, and any correct sort of this total order produces
the same list, so insertion sort embeds the library sort. -/
def sortPaths (l : List String) : List String :=
  l.insertionSort (fun a b => pathLe a b = true)

/-- Modelled from the spec: `deduplicate::find_exact_duplicates`, called by
plan.rs but whose module is not among the sources.  Per spec §4.3 every path is
hashed by full content and paths with identical hashes form one group keyed by
the hash (the hash is modelled by the content itself, an injective stand-in);
per §7(c) an unreadable file during hashing propagates and aborts the plan
run. -/
def find_exact_duplicates (content : String → Option String) (paths : List String) :
    Except PlanError (List (String × List String)) :=
  if paths.all (fun q => (content q).isSome) then
    .ok (((paths.filterMap content).dedup).map
      (fun h => (h, paths.filter (fun q => content q == some h))))
  else .error .dedupIo

/-- The two maps `mark_input_duplicates` accumulates (Rust `HashMap`s
`duplicate_of` and `hash_of`, as association lists where the most recent
insertion is found first, matching the overwrite semantics). -/
structure DupMaps where
  dup : List (String × String)
  hash : List (String × String)

/-- One iteration of the `for (h, mut group) in dup_groups` loop of
`mark_input_duplicates`: sort the group in `PathBuf` (componentwise) order,
record the hash for the canonical first element, and for every later member
record `duplicate_of` and the hash.  (The empty case is unreachable: detector
groups are non-empty.) -/
def addGroup (acc : DupMaps) (hg : String × List String) : DupMaps :=
  match sortPaths hg.2 with
  | [] => acc
  | canonical :: rest =>
    let acc1 : DupMaps := ⟨acc.dup, (canonical, hg.1) :: acc.hash⟩
    rest.foldl (fun a q => ⟨(q, canonical) :: a.dup, (q, hg.1) :: a.hash⟩) acc1

/-- The accumulated maps over all duplicate groups. -/
def dupMapsOf (groups : List (String × List String)) : DupMaps :=
  groups.foldl addGroup ⟨[], []⟩

/-- Whether a kind participates in deduplication
(`matches!(item.kind, MediaKind::Photo | MediaKind::Video)`). -/
def isDedupKind (k : MediaKind) : Bool :=
  match k with
  | .photo | .video => true
  | .dvd => false

/-- The per-item mutation of the second loop of `mark_input_duplicates`: for a
dedup-eligible item, set `size_bytes` from metadata, and overwrite
`content_hash` / `duplicate_of` when the maps contain its source path. -/
def annotateItem (env : Env) (maps : DupMaps) (it : PlannedItem) : PlannedItem :=
  if isDedupKind it.kind then
    let it1 := { it with size_bytes := env.fileSize it.src }
    let it2 :=
      match maps.hash.lookup it1.src with
      | some h => { it1 with content_hash := some h }
      | Option.none => it1
    match maps.dup.lookup it2.src with
    | some c => { it2 with duplicate_of := some c }
    | Option.none => it2
  else it

/-- The duplicate counters the second loop adds to the summary. -/
def dupCountStep (maps : DupMaps) (s : PlanSummary) (it : PlannedItem) : PlanSummary :=
  if isDedupKind it.kind then
    match maps.dup.lookup it.src with
    | some _ =>
      match it.kind with
      | .photo => { s with duplicate_photos := s.duplicate_photos + 1 }
      | .video => { s with duplicate_videos := s.duplicate_videos + 1 }
      | .dvd => s
    | Option.none => s
  else s

/-- The source paths of the dedup-eligible planned items, in order (the
`paths` vector of `mark_input_duplicates`). -/
def dedupSrcs (planned : List PlannedItem) : List String :=
  (planned.filter (fun it => isDedupKind it.kind)).map (fun it => it.src)

/-- plan.rs `mark_input_duplicates`: collect eligible paths, run the duplicate
detector (whose I/O error propagates), build the two maps, and back-annotate
size, hash and duplicate-of onto the items while counting duplicates. -/
def mark_input_duplicates (env : Env) (planned : List PlannedItem)
    (summary : PlanSummary) : Except PlanError (List PlannedItem × PlanSummary) :=
  match find_exact_duplicates env.fileContent (dedupSrcs planned) with
  | .error e => .error e
  | .ok groups =>
    let maps := dupMapsOf groups
    .ok (planned.map (annotateItem env maps), planned.foldl (dupCountStep maps) summary)

/-! plan.rs `build_plan`.  The `walkdir` tree walk is an external collaborator:
it is modelled by the list of entries it yields, in order; an `Err(_)` entry is
skipped by the loop. -/

/-- The file type of a walk entry. -/
inductive FileType
  | dir
  | file
  | other
deriving DecidableEq, Repr

/-- One entry yielded by the tree walk. -/
inductive WalkEntry
  | ok (path : FsPath) (ftype : FileType)
  | err
deriving DecidableEq, Repr

/-- The mutable state of the walk loop in `build_plan`. -/
structure BuildAcc where
  planned : List PlannedItem
  summary : PlanSummary
  dvdRoots : List FsPath
deriving Repr

/-- `HashSet::insert` on the DVD-root set, keeping first-insertion order (the
set's iteration order is unspecified in Rust; the claims proved below do not
depend on it). -/
def insertRoot (roots : List FsPath) (r : FsPath) : List FsPath :=
  if r ∈ roots then roots else roots ++ [r]

/-- The `Kind::Photo` arm of the walk loop of `build_plan`. -/
def buildPhotoStep (env : Env) (out_root : FsPath) (acc : BuildAcc) (path : FsPath) :
    Except PlanError BuildAcc :=
  let s1 := { acc.summary with photos := acc.summary.photos + 1 }
  (best_datetime_for_file env path).map fun dts =>
    let s2 :=
      if dts.1.isNone then { s1 with missing_date := s1.missing_date + 1 } else s1
    let dst := plan_dst out_root .photo path dts.1
    let item : PlannedItem :=
      { kind := .photo, action := .copy, src := pathToString path,
        dst := pathToString dst, best_dt := dts.1.map format_dt,
        date_source := dts.2, size_bytes := none, content_hash := none,
        duplicate_of := none }
    { acc with planned := acc.planned ++ [item],
               summary := { s2 with planned := s2.planned + 1 } }

/-- The `Kind::Video` arm of the walk loop of `build_plan`. -/
def buildVideoStep (env : Env) (out_root : FsPath) (acc : BuildAcc) (path : FsPath) :
    Except PlanError BuildAcc :=
  let s1 := { acc.summary with videos := acc.summary.videos + 1 }
  (best_datetime_for_file env path).map fun dts =>
    let s2 :=
      if dts.1.isNone then { s1 with missing_date := s1.missing_date + 1 } else s1
    let action := action_for_video path
    let s3 :=
      if action = .convertVideo then
        { s2 with need_convert_video := s2.need_convert_video + 1 }
      else s2
    let dst := plan_dst out_root .video path dts.1
    let item : PlannedItem :=
      { kind := .video, action := action, src := pathToString path,
        dst := pathToString dst, best_dt := dts.1.map format_dt,
        date_source := dts.2, size_bytes := none, content_hash := none,
        duplicate_of := none }
    { acc with planned := acc.planned ++ [item],
               summary := { s3 with planned := s3.planned + 1 } }

/-- One iteration of the walk loop of `build_plan`. -/
def buildStep (env : Env) (out_root : FsPath) (acc : BuildAcc) (entry : WalkEntry) :
    Except PlanError BuildAcc :=
  match entry with
  | .err => .ok acc
  | .ok path ftype =>
    if ftype = .dir then
      match dvd_root_from_video_ts_dir path with
      | some r => .ok { acc with dvdRoots := insertRoot acc.dvdRoots r }
      | Option.none => .ok acc
    else if ftype ≠ .file then .ok acc
    else if is_inside_video_ts path then .ok acc
    else
      match classify path with
      | .photo => buildPhotoStep env out_root acc path
      | .video => buildVideoStep env out_root acc path
      | _ => .ok acc

/-- The walk loop of `build_plan` over the entries the walker yields. -/
def buildWalk (env : Env) (out_root : FsPath) : BuildAcc → List WalkEntry →
    Except PlanError BuildAcc
  | acc, [] => .ok acc
  | acc, e :: es => (buildStep env out_root acc e).bind fun acc2 => buildWalk env out_root acc2 es

/-- One iteration of the DVD loop of `build_plan`: count the root, resolve its
date, enumerate its main-title VOBs (whose error propagates; the result is
otherwise discarded, as in `let _vobs = ...`), and append one ConvertDvd
item. -/
def addDvdItem (env : Env) (out_root : FsPath) (st : List PlannedItem × PlanSummary)
    (root : FsPath) : Except PlanError (List PlannedItem × PlanSummary) :=
  let s1 := { st.2 with dvds := st.2.dvds + 1 }
  let dts := best_datetime_for_dvd env root
  let s2 := if dts.1.isNone then { s1 with missing_date := s1.missing_date + 1 } else s1
  (env.dvdMainTitleVobs root).map fun _vobs =>
    let dst := plan_dst out_root .dvd root dts.1
    let item : PlannedItem :=
      { kind := .dvd, action := .convertDvd, src := pathToString root,
        dst := pathToString dst, best_dt := dts.1.map format_dt,
        date_source := dts.2, size_bytes := none, content_hash := none,
        duplicate_of := none }
    (st.1 ++ [item],
     { s2 with need_convert_dvd := s2.need_convert_dvd + 1, planned := s2.planned + 1 })

/-- The DVD loop of `build_plan` over the recorded roots. -/
def addDvdItems (env : Env) (out_root : FsPath) : List FsPath →
    (List PlannedItem × PlanSummary) → Except PlanError (List PlannedItem × PlanSummary)
  | [], st => .ok st
  | r :: rs, st => (addDvdItem env out_root st r).bind (addDvdItems env out_root rs)

/-- plan.rs `build_plan`: the walk, then duplicate marking, then the DVD
loop. -/
def build_plan (env : Env) (entries : List WalkEntry) (out_root : FsPath) :
    Except PlanError (List PlannedItem × PlanSummary) :=
  (buildWalk env out_root ⟨[], PlanSummary.new, []⟩ entries).bind fun acc =>
    (mark_input_duplicates env acc.planned acc.summary).bind fun st =>
      addDvdItems env out_root acc.dvdRoots st

/-! main.rs.  The binary's `main` takes `env::args().nth(1)` as the directory
root to scan, defaulting to `"."`, and runs the walk-and-print scan; it has no
subcommand dispatch at all. -/

/-- What the entry point decides to do from the argument vector. -/
inductive MainAction
  | scan (root : String)
deriving DecidableEq, Repr

/-- main.rs `main`, lines 119-121: `let root = std::env::args().nth(1)
.unwrap_or_else(|| ".".to_string());` followed by the scan loop.  The argument
vector includes the program name at index 0. -/
def main_behavior (argv : List String) : MainAction :=
  MainAction.scan ((argv.get? 1).getD ".")

/-! apply.rs -/

/-- apply.rs `ApplySummary` (field names as in the source, including the
`skipped_dupliace` spelling). -/
structure ApplySummary where
  total : Nat
  copied : Nat
  converted_video : Nat
  converted_dvd : Nat
  skipped_existing : Nat
  skipped_dupliace : Nat
  failed : Nat
deriving DecidableEq, Repr

/-- apply.rs `ApplySummary::new`. -/
def ApplySummary.new : ApplySummary := ⟨0, 0, 0, 0, 0, 0, 0⟩

/-- One line appended to a log file during apply, structured by its tag:
`OK\taction\tsrc\t->\tdst`, `FAIL\taction\tsrc\t->\tdst\t[err]`, or
`SKIP_DUP\tsrc\tdup_of=canon`. -/
inductive LogLine
  | okLine (action : Action) (src dst : String)
  | failLine (action : Action) (src dst err : String)
  | dupLine (src canon : String)
deriving DecidableEq, Repr

/-- A destination-writing filesystem operation attempted during apply
(`fs::copy`, `ffmpeg_convert_to_mp4`, `ffmpeg_convert_dvd_to_mp4`). -/
inductive FsOp
  | copyOp (src dst : String)
  | convertVideoOp (src dst : String)
  | convertDvdOp (src dst : String)
deriving DecidableEq, Repr

/-- The operation an item's `Action` dispatches to. -/
def opFor (it : PlannedItem) : FsOp :=
  match it.action with
  | .copy => .copyOp it.src it.dst
  | .convertVideo => .convertVideoOp it.src it.dst
  | .convertDvd => .convertDvdOp it.src it.dst

/-- The state threaded through `apply_items`: the summary, the set of existing
destination paths (`dst.exists()`), the lines appended to the three logs this
run, and the trace of attempted filesystem operations. -/
structure ApplyState where
  summary : ApplySummary
  fs : List String
  okLog : List LogLine
  failLog : List LogLine
  dupLog : List LogLine
  trace : List FsOp
deriving DecidableEq, Repr

/-- The copy/transcode collaborator of one apply run: for each item reaching
its action, `none` means the operation succeeds (producing the destination
file), `some e` means it fails with captured error `e` and, per the
atomic-or-nothing transcoder assumption of spec §6, leaves no destination. -/
abbrev Outcome := PlannedItem → Option String

/-- The per-action success counter increments of `apply_items`. -/
def bumpOk (s : ApplySummary) (a : Action) : ApplySummary :=
  match a with
  | .copy => { s with copied := s.copied + 1 }
  | .convertVideo => { s with converted_video := s.converted_video + 1 }
  | .convertDvd => { s with converted_dvd := s.converted_dvd + 1 }

/-- One iteration of the item loop of apply.rs `apply_items`: count the item;
a set `duplicate_of` short-circuits to the duplicates log; an existing
destination short-circuits to skipped-existing; otherwise dispatch the action
and record OK or FAIL. -/
def applyOne (outcome : Outcome) (st : ApplyState) (it : PlannedItem) : ApplyState :=
  let s0 := { st.summary with total := st.summary.total + 1 }
  match it.duplicate_of with
  | some canon =>
    { st with summary := { s0 with skipped_dupliace := s0.skipped_dupliace + 1 },
              dupLog := st.dupLog ++ [.dupLine it.src canon] }
  | Option.none =>
    if st.fs.contains it.dst then
      { st with summary := { s0 with skipped_existing := s0.skipped_existing + 1 } }
    else
      match outcome it with
      | Option.none =>
        { st with summary := bumpOk s0 it.action,
                  fs := it.dst :: st.fs,
                  okLog := st.okLog ++ [.okLine it.action it.src it.dst],
                  trace := st.trace ++ [opFor it] }
      | some e =>
        { st with summary := { s0 with failed := s0.failed + 1 },
                  failLog := st.failLog ++ [.failLine it.action it.src it.dst e],
                  trace := st.trace ++ [opFor it] }

/-- apply.rs `apply_items` over a manifest, starting from a fresh summary, the
given set of existing destinations, and empty per-run log appends. -/
def apply_items (outcome : Outcome) (fs : List String) (items : List PlannedItem) :
    ApplyState :=
  items.foldl (applyOne outcome) ⟨ApplySummary.new, fs, [], [], [], []⟩

/-- apply.rs `read_manifest_jsonl`, with `serde_json::from_str` as the parse
collaborator and the file's lines as input: skip lines blank after trimming,
parse the rest in order, abort with the 1-based line number on the first parse
failure. `i` is the 0-based index of the current line. -/
def readManifestGo (parse : String → Option PlannedItem) :
    Nat → List String → Except Nat (List PlannedItem)
  | _, [] => .ok []
  | i, l :: ls =>
    if trimChars l = "" then readManifestGo parse (i + 1) ls
    else
      match parse l with
      | some it => (readManifestGo parse (i + 1) ls).map (fun items => it :: items)
      | Option.none => .error (i + 1)

/-- apply.rs `read_manifest_jsonl`. -/
def read_manifest_jsonl (parse : String → Option PlannedItem) (lines : List String) :
    Except Nat (List PlannedItem) :=
  readManifestGo parse 0 lines

/-! Lemmas about the apply executor. -/

theorem contains_iff_mem (l : List String) (a : String) :
    l.contains a = true ↔ a ∈ l := by
  simp [List.contains, List.elem_iff]

theorem applyOne_dup (outcome : Outcome) (st : ApplyState) (it : PlannedItem)
    (canon : String) (h : it.duplicate_of = some canon) :
    applyOne outcome st it =
      { st with
          summary :=
            { st.summary with
                total := st.summary.total + 1
                skipped_dupliace := st.summary.skipped_dupliace + 1 },
          dupLog := st.dupLog ++ [.dupLine it.src canon] } := by
  simp [applyOne, h]

theorem applyOne_exists (outcome : Outcome) (st : ApplyState) (it : PlannedItem)
    (h1 : it.duplicate_of = none) (h2 : st.fs.contains it.dst = true) :
    applyOne outcome st it =
      { st with
          summary :=
            { st.summary with
                total := st.summary.total + 1
                skipped_existing := st.summary.skipped_existing + 1 } } := by
  have h2m : it.dst ∈ st.fs := (contains_iff_mem st.fs it.dst).mp h2
  simp [applyOne, h1, h2m]

theorem applyOne_ok (outcome : Outcome) (st : ApplyState) (it : PlannedItem)
    (h1 : it.duplicate_of = none) (h2 : st.fs.contains it.dst = false)
    (h3 : outcome it = none) :
    applyOne outcome st it =
      { st with
          summary := bumpOk { st.summary with total := st.summary.total + 1 } it.action,
          fs := it.dst :: st.fs,
          okLog := st.okLog ++ [.okLine it.action it.src it.dst],
          trace := st.trace ++ [opFor it] } := by
  have h2m : it.dst ∉ st.fs := fun hm => by
    rw [(contains_iff_mem st.fs it.dst).mpr hm] at h2
    cases h2
  simp [applyOne, h1, h2m, h3]

theorem applyOne_fail (outcome : Outcome) (st : ApplyState) (it : PlannedItem)
    (e : String) (h1 : it.duplicate_of = none) (h2 : st.fs.contains it.dst = false)
    (h3 : outcome it = some e) :
    applyOne outcome st it =
      { st with
          summary :=
            { st.summary with
                total := st.summary.total + 1
                failed := st.summary.failed + 1 },
          failLog := st.failLog ++ [.failLine it.action it.src it.dst e],
          trace := st.trace ++ [opFor it] } := by
  have h2m : it.dst ∉ st.fs := fun hm => by
    rw [(contains_iff_mem st.fs it.dst).mpr hm] at h2
    cases h2
  simp [applyOne, h1, h2m, h3]

theorem applyOne_fs_sub (outcome : Outcome) (st : ApplyState) (it : PlannedItem) :
    st.fs ⊆ (applyOne outcome st it).fs := by
  cases h1 : it.duplicate_of with
  | some canon =>
    rw [applyOne_dup outcome st it canon h1]
    exact fun x hx => hx
  | none =>
    cases h2 : st.fs.contains it.dst with
    | true =>
      rw [applyOne_exists outcome st it h1 h2]
      exact fun x hx => hx
    | false =>
      cases h3 : outcome it with
      | some e =>
        rw [applyOne_fail outcome st it e h1 h2 h3]
        exact fun x hx => hx
      | none =>
        rw [applyOne_ok outcome st it h1 h2 h3]
        exact fun x hx => List.mem_cons_of_mem _ hx

theorem foldl_apply_fs_sub (outcome : Outcome) (items : List PlannedItem)
    (st : ApplyState) :
    st.fs ⊆ (List.foldl (applyOne outcome) st items).fs := by
  induction items generalizing st with
  | nil => exact fun x hx => hx
  | cons it0 rest ih =>
    intro x hx
    exact ih (applyOne outcome st it0) (applyOne_fs_sub outcome st it0 hx)

theorem apply_run_covers (outcome : Outcome) (items : List PlannedItem)
    (st : ApplyState) :
    ∀ it ∈ items, it.duplicate_of ≠ none ∨
      it.dst ∈ (List.foldl (applyOne outcome) st items).fs ∨
      (outcome it).isSome = true := by
  induction items generalizing st with
  | nil => intro it h; cases h
  | cons it0 rest ih =>
    intro it hmem
    rcases List.mem_cons.mp hmem with heq | hrest
    · subst heq
      cases h1 : it.duplicate_of with
      | some canon => exact Or.inl (by simp [h1])
      | none =>
        cases h2 : st.fs.contains it.dst with
        | true =>
          refine Or.inr (Or.inl ?_)
          have hdst : it.dst ∈ (applyOne outcome st it).fs := by
            rw [applyOne_exists outcome st it h1 h2]
            exact (contains_iff_mem st.fs it.dst).mp h2
          exact foldl_apply_fs_sub outcome rest (applyOne outcome st it) hdst
        | false =>
          cases h3 : outcome it with
          | some e => exact Or.inr (Or.inr (by simp [h3]))
          | none =>
            refine Or.inr (Or.inl ?_)
            have hdst : it.dst ∈ (applyOne outcome st it).fs := by
              rw [applyOne_ok outcome st it h1 h2 h3]
              exact List.mem_cons_self _ _
            exact foldl_apply_fs_sub outcome rest (applyOne outcome st it) hdst
    · exact ih (applyOne outcome st it0) it hrest

theorem apply_run_frozen (outcome : Outcome) (items : List PlannedItem)
    (st : ApplyState)
    (hcov : ∀ it ∈ items, it.duplicate_of ≠ none ∨ it.dst ∈ st.fs ∨
      (outcome it).isSome = true) :
    (List.foldl (applyOne outcome) st items).fs = st.fs ∧
    (List.foldl (applyOne outcome) st items).summary.copied = st.summary.copied ∧
    (List.foldl (applyOne outcome) st items).summary.converted_video =
      st.summary.converted_video ∧
    (List.foldl (applyOne outcome) st items).summary.converted_dvd =
      st.summary.converted_dvd ∧
    (List.foldl (applyOne outcome) st items).okLog = st.okLog := by
  induction items generalizing st with
  | nil => exact ⟨rfl, rfl, rfl, rfl, rfl⟩
  | cons it0 rest ih =>
    have hstep : (applyOne outcome st it0).fs = st.fs ∧
        (applyOne outcome st it0).summary.copied = st.summary.copied ∧
        (applyOne outcome st it0).summary.converted_video = st.summary.converted_video ∧
        (applyOne outcome st it0).summary.converted_dvd = st.summary.converted_dvd ∧
        (applyOne outcome st it0).okLog = st.okLog := by
      rcases hcov it0 (List.mem_cons_self _ _) with h1 | h2 | h3
      · cases hd : it0.duplicate_of with
        | none => exact absurd hd h1
        | some canon => rw [applyOne_dup outcome st it0 canon hd]; exact ⟨rfl, rfl, rfl, rfl, rfl⟩
      · cases hd : it0.duplicate_of with
        | some canon => rw [applyOne_dup outcome st it0 canon hd]; exact ⟨rfl, rfl, rfl, rfl, rfl⟩
        | none =>
          have hc : st.fs.contains it0.dst = true := (contains_iff_mem st.fs it0.dst).mpr h2
          rw [applyOne_exists outcome st it0 hd hc]; exact ⟨rfl, rfl, rfl, rfl, rfl⟩
      · cases hd : it0.duplicate_of with
        | some canon => rw [applyOne_dup outcome st it0 canon hd]; exact ⟨rfl, rfl, rfl, rfl, rfl⟩
        | none =>
          cases hc : st.fs.contains it0.dst with
          | true => rw [applyOne_exists outcome st it0 hd hc]; exact ⟨rfl, rfl, rfl, rfl, rfl⟩
          | false =>
            cases ho : outcome it0 with
            | none => rw [ho] at h3; cases h3
            | some e => rw [applyOne_fail outcome st it0 e hd hc ho]; exact ⟨rfl, rfl, rfl, rfl, rfl⟩
    have hcov2 : ∀ it ∈ rest, it.duplicate_of ≠ none ∨
        it.dst ∈ (applyOne outcome st it0).fs ∨ (outcome it).isSome = true := by
      intro it hmem
      rcases hcov it (List.mem_cons_of_mem _ hmem) with h | h | h
      · exact Or.inl h
      · exact Or.inr (Or.inl (hstep.1 ▸ h))
      · exact Or.inr (Or.inr h)
    have ihr := ih (applyOne outcome st it0) hcov2
    rw [List.foldl_cons]
    exact ⟨ihr.1.trans hstep.1, ihr.2.1.trans hstep.2.1, ihr.2.2.1.trans hstep.2.2.1,
           ihr.2.2.2.1.trans hstep.2.2.2.1, ihr.2.2.2.2.trans hstep.2.2.2.2⟩

/-- Every counter of the summary after one item is at least its value before,
and `total` and the sum of the six disposition counters both advance by exactly
one. -/
theorem applyOne_summary_step (outcome : Outcome) (st : ApplyState) (it : PlannedItem) :
    (applyOne outcome st it).summary.total = st.summary.total + 1 ∧
    (applyOne outcome st it).summary.copied + (applyOne outcome st it).summary.converted_video +
      (applyOne outcome st it).summary.converted_dvd +
      (applyOne outcome st it).summary.skipped_existing +
      (applyOne outcome st it).summary.skipped_dupliace +
      (applyOne outcome st it).summary.failed =
      st.summary.copied + st.summary.converted_video + st.summary.converted_dvd +
        st.summary.skipped_existing + st.summary.skipped_dupliace + st.summary.failed + 1 ∧
    st.summary.total ≤ (applyOne outcome st it).summary.total ∧
    st.summary.copied ≤ (applyOne outcome st it).summary.copied ∧
    st.summary.converted_video ≤ (applyOne outcome st it).summary.converted_video ∧
    st.summary.converted_dvd ≤ (applyOne outcome st it).summary.converted_dvd ∧
    st.summary.skipped_existing ≤ (applyOne outcome st it).summary.skipped_existing ∧
    st.summary.skipped_dupliace ≤ (applyOne outcome st it).summary.skipped_dupliace ∧
    st.summary.failed ≤ (applyOne outcome st it).summary.failed := by
  cases h1 : it.duplicate_of with
  | some canon =>
    rw [applyOne_dup outcome st it canon h1]
    refine ⟨?_, ?_, ?_, ?_, ?_, ?_, ?_, ?_, ?_⟩ <;> simp_arith
  | none =>
    cases h2 : st.fs.contains it.dst with
    | true =>
      rw [applyOne_exists outcome st it h1 h2]
      refine ⟨?_, ?_, ?_, ?_, ?_, ?_, ?_, ?_, ?_⟩ <;> simp_arith
    | false =>
      cases h3 : outcome it with
      | some e =>
        rw [applyOne_fail outcome st it e h1 h2 h3]
        refine ⟨?_, ?_, ?_, ?_, ?_, ?_, ?_, ?_, ?_⟩ <;> simp_arith
      | none =>
        rw [applyOne_ok outcome st it h1 h2 h3]
        cases it.action <;>
          (refine ⟨?_, ?_, ?_, ?_, ?_, ?_, ?_, ?_, ?_⟩ <;> simp_arith [bumpOk])

theorem foldl_apply_total (outcome : Outcome) (items : List PlannedItem) (st : ApplyState) :
    (List.foldl (applyOne outcome) st items).summary.total =
      st.summary.total + items.length := by
  induction items generalizing st with
  | nil => rfl
  | cons it0 rest ih =>
    rw [List.foldl_cons, ih (applyOne outcome st it0),
        (applyOne_summary_step outcome st it0).1, List.length_cons]
    omega

theorem foldl_apply_sum (outcome : Outcome) (items : List PlannedItem) (st : ApplyState) :
    (List.foldl (applyOne outcome) st items).summary.copied +
      (List.foldl (applyOne outcome) st items).summary.converted_video +
      (List.foldl (applyOne outcome) st items).summary.converted_dvd +
      (List.foldl (applyOne outcome) st items).summary.skipped_existing +
      (List.foldl (applyOne outcome) st items).summary.skipped_dupliace +
      (List.foldl (applyOne outcome) st items).summary.failed =
      st.summary.copied + st.summary.converted_video + st.summary.converted_dvd +
        st.summary.skipped_existing + st.summary.skipped_dupliace + st.summary.failed +
        items.length := by
  induction items generalizing st with
  | nil => rfl
  | cons it0 rest ih =>
    rw [List.foldl_cons, ih (applyOne outcome st it0),
        (applyOne_summary_step outcome st it0).2.1, List.length_cons]
    omega

/-- Every OK line appended by a run of the item loop comes from an item of the
manifest with `duplicate_of` unset. -/
theorem foldl_okLog_provenance (outcome : Outcome) (items : List PlannedItem)
    (st : ApplyState) :
    ∀ l ∈ (List.foldl (applyOne outcome) st items).okLog,
      l ∈ st.okLog ∨ ∃ it2 ∈ items, it2.duplicate_of = none ∧
        l = LogLine.okLine it2.action it2.src it2.dst := by
  induction items generalizing st with
  | nil => intro l hl; exact Or.inl hl
  | cons it0 rest ih =>
    intro l hl
    rw [List.foldl_cons] at hl
    rcases ih (applyOne outcome st it0) l hl with hin | ⟨it2, hmem, hd, heq⟩
    · cases h1 : it0.duplicate_of with
      | some canon =>
        rw [applyOne_dup outcome st it0 canon h1] at hin
        exact Or.inl hin
      | none =>
        cases h2 : st.fs.contains it0.dst with
        | true =>
          rw [applyOne_exists outcome st it0 h1 h2] at hin
          exact Or.inl hin
        | false =>
          cases h3 : outcome it0 with
          | some e =>
            rw [applyOne_fail outcome st it0 e h1 h2 h3] at hin
            exact Or.inl hin
          | none =>
            rw [applyOne_ok outcome st it0 h1 h2 h3] at hin
            rcases List.mem_append.mp hin with hin2 | hsing
            · exact Or.inl hin2
            · refine Or.inr ⟨it0, List.mem_cons_self _ _, h1, ?_⟩
              simpa using hsing
    · exact Or.inr ⟨it2, List.mem_cons_of_mem _ hmem, hd, heq⟩

/-- Every FAIL line appended by a run of the item loop comes from an item of
the manifest with `duplicate_of` unset whose action failed, and carries that
item's captured error. -/
theorem foldl_failLog_provenance (outcome : Outcome) (items : List PlannedItem)
    (st : ApplyState) :
    ∀ l ∈ (List.foldl (applyOne outcome) st items).failLog,
      l ∈ st.failLog ∨ ∃ it2 ∈ items, it2.duplicate_of = none ∧
        ∃ e2, outcome it2 = some e2 ∧
          l = LogLine.failLine it2.action it2.src it2.dst e2 := by
  induction items generalizing st with
  | nil => intro l hl; exact Or.inl hl
  | cons it0 rest ih =>
    intro l hl
    rw [List.foldl_cons] at hl
    rcases ih (applyOne outcome st it0) l hl with hin | ⟨it2, hmem, hd, heq⟩
    · cases h1 : it0.duplicate_of with
      | some canon =>
        rw [applyOne_dup outcome st it0 canon h1] at hin
        exact Or.inl hin
      | none =>
        cases h2 : st.fs.contains it0.dst with
        | true =>
          rw [applyOne_exists outcome st it0 h1 h2] at hin
          exact Or.inl hin
        | false =>
          cases h3 : outcome it0 with
          | none =>
            rw [applyOne_ok outcome st it0 h1 h2 h3] at hin
            exact Or.inl hin
          | some e =>
            rw [applyOne_fail outcome st it0 e h1 h2 h3] at hin
            rcases List.mem_append.mp hin with hin2 | hsing
            · exact Or.inl hin2
            · refine Or.inr ⟨it0, List.mem_cons_self _ _, h1, e, h3, ?_⟩
              simpa using hsing
    · exact Or.inr ⟨it2, List.mem_cons_of_mem _ hmem, hd, heq⟩

/-! Claim theorems for the apply executor and the entry point. -/

/-- Claim C2 (code_bug evidence): the entry point in src/src/main.rs has no
subcommand dispatch at all.  `main` reads `args().nth(1)` as the directory to
scan (defaulting to `"."`) and runs the scan loop, so the argument vector
`[prog, "plan", ".", "./ExportSet"]` makes it scan a directory literally named
`plan` instead of building a plan and writing `manifest.jsonl`; `apply` is
likewise treated as a scan root; and with no subcommand it scans `.` instead
of printing usage to standard error. -/
theorem main_has_no_subcommand_dispatch :
    main_behavior ["media_organizer", "plan", ".", "./ExportSet"] = MainAction.scan "plan" ∧
    main_behavior ["media_organizer", "apply"] = MainAction.scan "apply" ∧
    main_behavior ["media_organizer"] = MainAction.scan "." := by
  exact ⟨rfl, rfl, rfl⟩

/-- Claim C10: for every manifest, `apply_items` returns a summary with
`total` equal to the number of items processed and equal to the sum
`copied + converted_video + converted_dvd + skipped_existing +
skipped_dupliace + failed`; all counters start at zero (the summary of the
empty manifest is `ApplySummary::new`) and each iteration only ever increases
every counter. -/
theorem apply_summary_invariants (outcome : Outcome) (fs : List String)
    (items : List PlannedItem) (st : ApplyState) (it : PlannedItem) :
    (apply_items outcome fs items).summary.total = items.length ∧
    (apply_items outcome fs items).summary.total =
      (apply_items outcome fs items).summary.copied +
      (apply_items outcome fs items).summary.converted_video +
      (apply_items outcome fs items).summary.converted_dvd +
      (apply_items outcome fs items).summary.skipped_existing +
      (apply_items outcome fs items).summary.skipped_dupliace +
      (apply_items outcome fs items).summary.failed ∧
    (apply_items outcome fs []).summary = ApplySummary.new ∧
    (st.summary.total ≤ (applyOne outcome st it).summary.total ∧
     st.summary.copied ≤ (applyOne outcome st it).summary.copied ∧
     st.summary.converted_video ≤ (applyOne outcome st it).summary.converted_video ∧
     st.summary.converted_dvd ≤ (applyOne outcome st it).summary.converted_dvd ∧
     st.summary.skipped_existing ≤ (applyOne outcome st it).summary.skipped_existing ∧
     st.summary.skipped_dupliace ≤ (applyOne outcome st it).summary.skipped_dupliace ∧
     st.summary.failed ≤ (applyOne outcome st it).summary.failed) := by
  refine ⟨?_, ?_, rfl, (applyOne_summary_step outcome st it).2.2⟩
  · rw [apply_items, foldl_apply_total]
    simp [ApplySummary.new]
  · rw [apply_items, foldl_apply_total, foldl_apply_sum]
    simp [ApplySummary.new]

/-- Claim C9: an item whose copy or conversion fails contributes exactly a
`failed` increment and a FAIL line carrying the captured error, and a
successful item contributes exactly the per-action counter matching its
`Action` and an OK line; in both cases the loop continues over the remaining
manifest (every item of the manifest is counted in `total`). -/
theorem apply_item_error_handling (outcome : Outcome) (st : ApplyState)
    (it : PlannedItem) (e : String) (fs : List String) (items : List PlannedItem) :
    (it.duplicate_of = none → st.fs.contains it.dst = false → outcome it = some e →
      applyOne outcome st it =
        { st with
            summary :=
              { st.summary with
                  total := st.summary.total + 1
                  failed := st.summary.failed + 1 },
            failLog := st.failLog ++ [.failLine it.action it.src it.dst e],
            trace := st.trace ++ [opFor it] }) ∧
    (it.duplicate_of = none → st.fs.contains it.dst = false → outcome it = none →
      applyOne outcome st it =
        { st with
            summary := bumpOk { st.summary with total := st.summary.total + 1 } it.action,
            fs := it.dst :: st.fs,
            okLog := st.okLog ++ [.okLine it.action it.src it.dst],
            trace := st.trace ++ [opFor it] }) ∧
    (apply_items outcome fs items).summary.total = items.length := by
  refine ⟨?_, ?_, ?_⟩
  · intro h1 h2 h3
    exact applyOne_fail outcome st it e h1 h2 h3
  · intro h1 h2 h3
    exact applyOne_ok outcome st it h1 h2 h3
  · rw [apply_items, foldl_apply_total]
    simp [ApplySummary.new]

/-- Claim C5: an item with `duplicate_of` set contributes exactly a
`skipped_dupliace` increment and one SKIP_DUP line in the duplicates log — the
filesystem set, the operation trace and the OK/FAIL logs are untouched — and
every line of the OK and FAIL logs of a whole run comes from an item whose
`duplicate_of` is unset. -/
theorem apply_skips_duplicate_items (outcome : Outcome) (st : ApplyState)
    (it : PlannedItem) (canon : String) (fs : List String) (items : List PlannedItem) :
    (it.duplicate_of = some canon →
      applyOne outcome st it =
        { st with
            summary :=
              { st.summary with
                  total := st.summary.total + 1
                  skipped_dupliace := st.summary.skipped_dupliace + 1 },
            dupLog := st.dupLog ++ [.dupLine it.src canon] }) ∧
    (∀ l ∈ (apply_items outcome fs items).okLog,
      ∃ it2 ∈ items, it2.duplicate_of = none ∧
        l = LogLine.okLine it2.action it2.src it2.dst) ∧
    (∀ l ∈ (apply_items outcome fs items).failLog,
      ∃ it2 ∈ items, it2.duplicate_of = none ∧
        ∃ e2, outcome it2 = some e2 ∧
          l = LogLine.failLine it2.action it2.src it2.dst e2) := by
  refine ⟨fun h => applyOne_dup outcome st it canon h, ?_, ?_⟩
  · intro l hl
    rcases foldl_okLog_provenance outcome items _ l hl with hin | hfound
    · cases hin
    · exact hfound
  · intro l hl
    rcases foldl_failLog_provenance outcome items _ l hl with hin | hfound
    · cases hin
    · exact hfound

/-- Claim C4: replaying the same manifest against the filesystem state left by
a first apply run performs zero additional copies or conversions (the three
success counters of the second run are zero and its OK log is empty), leaves
the filesystem unchanged, and any item with `duplicate_of` unset whose
destination already exists is counted as skipped-existing with no action
performed and nothing overwritten. -/
theorem apply_items_idempotent (outcome : Outcome) (fs0 : List String)
    (items : List PlannedItem) :
    ((apply_items outcome (apply_items outcome fs0 items).fs items).summary.copied = 0 ∧
     (apply_items outcome (apply_items outcome fs0 items).fs items).summary.converted_video = 0 ∧
     (apply_items outcome (apply_items outcome fs0 items).fs items).summary.converted_dvd = 0 ∧
     (apply_items outcome (apply_items outcome fs0 items).fs items).okLog = [] ∧
     (apply_items outcome (apply_items outcome fs0 items).fs items).fs =
       (apply_items outcome fs0 items).fs) ∧
    (∀ (st : ApplyState) (it : PlannedItem), it.duplicate_of = none →
      st.fs.contains it.dst = true →
      applyOne outcome st it =
        { st with
            summary :=
              { st.summary with
                  total := st.summary.total + 1
                  skipped_existing := st.summary.skipped_existing + 1 } }) := by
  refine ⟨?_, fun st it h1 h2 => applyOne_exists outcome st it h1 h2⟩
  have hcov : ∀ it ∈ items, it.duplicate_of ≠ none ∨
      it.dst ∈ (apply_items outcome fs0 items).fs ∨ (outcome it).isSome = true :=
    apply_run_covers outcome items ⟨ApplySummary.new, fs0, [], [], [], []⟩
  have hfr := apply_run_frozen outcome items
    ⟨ApplySummary.new, (apply_items outcome fs0 items).fs, [], [], [], []⟩ hcov
  exact ⟨hfr.2.1, hfr.2.2.1, hfr.2.2.2.1, hfr.2.2.2.2, hfr.1⟩

/-! Concrete witness data for the apply-side claims. -/

/-- A plain photo item that copies successfully. -/
def witItemA : PlannedItem :=
  ⟨.photo, .copy, "in/a.jpg", "out/a.jpg", none, .none, none, none, none⟩

/-- A duplicate photo item pointing at the canonical `in/a.jpg`. -/
def witItemDup : PlannedItem :=
  ⟨.photo, .copy, "in/b.jpg", "out/b.jpg", none, .none, none, none, some "in/a.jpg"⟩

/-- A video conversion item whose transcode fails. -/
def witItemFail : PlannedItem :=
  ⟨.video, .convertVideo, "in/f.avi", "out/f.mp4", none, .none, none, none, none⟩

/-- A deterministic copy/transcode collaborator: the `in/f.avi` conversion
fails with a captured error, everything else succeeds. -/
def witOutcome : Outcome := fun it => if it.src = "in/f.avi" then some "boom" else none

/-- A fresh apply state over a filesystem containing one unrelated output. -/
def witState : ApplyState := ⟨ApplySummary.new, ["out/x.jpg"], [], [], [], []⟩

theorem apply_item_error_handling_witness :
    (applyOne witOutcome witState witItemFail).summary.failed = 1 ∧
    (applyOne witOutcome witState witItemFail).failLog =
      [LogLine.failLine Action.convertVideo "in/f.avi" "out/f.mp4" "boom"] ∧
    (applyOne witOutcome witState witItemA).summary.copied = 1 ∧
    (apply_items witOutcome [] [witItemA, witItemFail]).summary.total = 2 := by
  refine ⟨?_, ?_, ?_,
    (apply_item_error_handling witOutcome witState witItemA "boom" []
      [witItemA, witItemFail]).2.2⟩
  · rw [(apply_item_error_handling witOutcome witState witItemFail "boom" [] []).1
      rfl rfl rfl]
    rfl
  · rw [(apply_item_error_handling witOutcome witState witItemFail "boom" [] []).1
      rfl rfl rfl]
    rfl
  · rw [(apply_item_error_handling witOutcome witState witItemA "boom" [] []).2.1
      rfl rfl rfl]
    rfl

theorem apply_skips_duplicate_items_witness :
    (applyOne witOutcome witState witItemDup).summary.skipped_dupliace = 1 ∧
    (applyOne witOutcome witState witItemDup).dupLog =
      [LogLine.dupLine "in/b.jpg" "in/a.jpg"] ∧
    (applyOne witOutcome witState witItemDup).trace = [] ∧
    (∀ l ∈ (apply_items witOutcome [] [witItemDup]).okLog,
      ∃ it2 ∈ [witItemDup], it2.duplicate_of = none ∧
        l = LogLine.okLine it2.action it2.src it2.dst) := by
  refine ⟨?_, ?_, ?_,
    (apply_skips_duplicate_items witOutcome witState witItemDup "in/a.jpg" []
      [witItemDup]).2.1⟩
  · rw [(apply_skips_duplicate_items witOutcome witState witItemDup "in/a.jpg" [] []).1 rfl]
    rfl
  · rw [(apply_skips_duplicate_items witOutcome witState witItemDup "in/a.jpg" [] []).1 rfl]
    rfl
  · rw [(apply_skips_duplicate_items witOutcome witState witItemDup "in/a.jpg" [] []).1 rfl]
    rfl

theorem apply_items_idempotent_witness :
    (apply_items witOutcome (apply_items witOutcome [] [witItemA, witItemFail]).fs
        [witItemA, witItemFail]).summary.copied = 0 ∧
    (apply_items witOutcome (apply_items witOutcome [] [witItemA, witItemFail]).fs
        [witItemA, witItemFail]).okLog = [] ∧
    (applyOne witOutcome ⟨ApplySummary.new, ["out/a.jpg"], [], [], [], []⟩
        witItemA).summary.skipped_existing = 1 := by
  refine ⟨(apply_items_idempotent witOutcome [] [witItemA, witItemFail]).1.1,
    (apply_items_idempotent witOutcome [] [witItemA, witItemFail]).1.2.2.2.1, ?_⟩
  rw [(apply_items_idempotent witOutcome [] [witItemA, witItemFail]).2
    ⟨ApplySummary.new, ["out/a.jpg"], [], [], [], []⟩ witItemA rfl rfl]
  rfl

/-! Manifest reading (claim C8). -/

theorem readManifestGo_ok (parse : String → Option PlannedItem) (lines : List String)
    (i0 : Nat) (items : List PlannedItem)
    (h : readManifestGo parse i0 lines = .ok items) :
    items = (lines.filter (fun l => !(trimChars l == ""))).filterMap parse ∧
    ∀ l ∈ lines, trimChars l ≠ "" → (parse l).isSome = true := by
  induction lines generalizing i0 items with
  | nil =>
    simp only [readManifestGo, Except.ok.injEq] at h
    subst h
    exact ⟨rfl, by intro l hl; cases hl⟩
  | cons l ls ih =>
    by_cases ht : trimChars l = ""
    · rw [readManifestGo, if_pos ht] at h
      have hr := ih (i0 + 1) items h
      constructor
      · rw [hr.1, List.filter_cons]
        simp [ht]
      · intro l2 hl2 hne
        rcases List.mem_cons.mp hl2 with heq | hmem
        · subst heq; exact absurd ht hne
        · exact hr.2 l2 hmem hne
    · rw [readManifestGo, if_neg ht] at h
      cases hp : parse l with
      | none => rw [hp] at h; cases h
      | some it =>
        rw [hp] at h
        cases hgo : readManifestGo parse (i0 + 1) ls with
        | error e => rw [hgo] at h; cases h
        | ok items2 =>
          rw [hgo] at h
          simp only [Except.map, Except.ok.injEq] at h
          have hr := ih (i0 + 1) items2 hgo
          constructor
          · rw [← h, hr.1, List.filter_cons]
            simp [ht, List.filterMap_cons, hp]
          · intro l2 hl2 hne
            rcases List.mem_cons.mp hl2 with heq | hmem
            · subst heq; simp [hp]
            · exact hr.2 l2 hmem hne

theorem readManifestGo_error (parse : String → Option PlannedItem) (lines : List String)
    (i0 i : Nat) (hi : i < lines.length)
    (hne : trimChars (lines.get ⟨i, hi⟩) ≠ "")
    (hbad : parse (lines.get ⟨i, hi⟩) = none)
    (hgood : ∀ j (hj : j < i), trimChars (lines.get ⟨j, Nat.lt_trans hj hi⟩) = "" ∨
      (parse (lines.get ⟨j, Nat.lt_trans hj hi⟩)).isSome = true) :
    readManifestGo parse i0 lines = .error (i0 + i + 1) := by
  induction lines generalizing i0 i with
  | nil => cases hi
  | cons l ls ih =>
    cases i with
    | zero =>
      have hl : (l :: ls).get ⟨0, hi⟩ = l := rfl
      rw [hl] at hne hbad
      rw [readManifestGo, if_neg hne, hbad]
    | succ k =>
      have hk : k < ls.length := Nat.lt_of_succ_lt_succ hi
      have hne2 : trimChars (ls.get ⟨k, hk⟩) ≠ "" := hne
      have hbad2 : parse (ls.get ⟨k, hk⟩) = none := hbad
      have hgood2 : ∀ j (hj : j < k), trimChars (ls.get ⟨j, Nat.lt_trans hj hk⟩) = "" ∨
          (parse (ls.get ⟨j, Nat.lt_trans hj hk⟩)).isSome = true :=
        fun j hj => hgood (j + 1) (Nat.succ_lt_succ hj)
      have hrec := ih (i0 + 1) k hk hne2 hbad2 hgood2
      by_cases ht : trimChars l = ""
      · rw [readManifestGo, if_pos ht, hrec]
        congr 1
        omega
      · rcases hgood 0 (Nat.succ_pos k) with hblank | hsome
        · exact absurd hblank ht
        · obtain ⟨it, hp⟩ := Option.isSome_iff_exists.mp hsome
          have hp2 : parse l = some it := hp
          rw [readManifestGo, if_neg ht, hp2, hrec]
          simp only [Except.map]
          congr 1
          omega

/-- Claim C8: reading the manifest skips lines blank after trimming, parses
every non-blank line independently in order (a successful read returns exactly
the parses of the non-blank lines, all of which parsed), and the first
non-blank line that fails to parse aborts the read with that line's 1-based
line number. -/
theorem read_manifest_jsonl_spec (parse : String → Option PlannedItem)
    (lines : List String) (items : List PlannedItem) (i : Nat) (hi : i < lines.length) :
    (read_manifest_jsonl parse lines = .ok items →
      items = (lines.filter (fun l => !(trimChars l == ""))).filterMap parse ∧
      ∀ l ∈ lines, trimChars l ≠ "" → (parse l).isSome = true) ∧
    (trimChars (lines.get ⟨i, hi⟩) ≠ "" → parse (lines.get ⟨i, hi⟩) = none →
      (∀ j (hj : j < i), trimChars (lines.get ⟨j, Nat.lt_trans hj hi⟩) = "" ∨
        (parse (lines.get ⟨j, Nat.lt_trans hj hi⟩)).isSome = true) →
      read_manifest_jsonl parse lines = .error (i + 1)) := by
  constructor
  · intro h
    exact readManifestGo_ok parse lines 0 items h
  · intro hne hbad hgood
    have := readManifestGo_error parse lines 0 i hi hne hbad hgood
    rw [read_manifest_jsonl, this]
    congr 1
    omega

/-- A concrete line parser for the manifest witness. -/
def witParse : String → Option PlannedItem :=
  fun s => if s = "good" then some witItemA else none

theorem read_manifest_jsonl_spec_witness :
    ([" ", "good"].filter (fun l => !(trimChars l == ""))).filterMap witParse =
      [witItemA] ∧
    read_manifest_jsonl witParse ["", "good", "bad"] = .error 3 := by
  constructor
  · exact ((read_manifest_jsonl_spec witParse [" ", "good"] [witItemA] 0 (by decide)).1
      rfl).1.symm
  · exact (read_manifest_jsonl_spec witParse ["", "good", "bad"] [] 2 (by decide)).2
      (by decide) rfl (by decide)

/-! Destination planning (claim C6). -/

theorem natDigitsAux_mem (fuel n : Nat) :
    ∀ c ∈ natDigitsAux fuel n, ∃ d, d < 10 ∧ c = digitChar d := by
  induction fuel generalizing n with
  | zero => intro c hc; cases hc
  | succ f ih =>
    intro c hc
    rw [natDigitsAux] at hc
    by_cases h : n < 10
    · rw [if_pos h] at hc
      exact ⟨n, h, List.mem_singleton.mp hc⟩
    · rw [if_neg h] at hc
      rcases List.mem_append.mp hc with h1 | h2
      · exact ih (n / 10) c h1
      · exact ⟨n % 10, Nat.mod_lt _ (by omega), List.mem_singleton.mp h2⟩

/-- A year formatted by chrono `%Y` is made of digits (possibly zero-padded)
and therefore is never the literal folder name `UnknownDate`. -/
theorem fmt4_ne_unknown (n : Nat) : fmt4 n ≠ "UnknownDate" := by
  intro h
  have hdata : List.replicate (4 - (natStr n).data.length) '0' ++ (natStr n).data =
      "UnknownDate".data := congrArg String.data h
  have hU : 'U' ∈ List.replicate (4 - (natStr n).data.length) '0' ++ (natStr n).data := by
    rw [hdata]; decide
  rcases List.mem_append.mp hU with h1 | h2
  · exact absurd (List.eq_of_mem_replicate h1) (by decide)
  · rcases natDigitsAux_mem (n + 1) n 'U' h2 with ⟨d, hd, hEq⟩
    have hAll : ∀ d, d < 10 → digitChar d ≠ 'U' := by decide
    exact hAll d hd hEq.symm

theorem fmtYear_ne_unknown (dt : DateTime) : fmtYear dt ≠ "UnknownDate" :=
  fmt4_ne_unknown dt.year

/-- Claim C6: `plan_dst` is a pure function (a Lean function of its four
arguments, so determinism is by construction) satisfying: the destination root
is `out_root/{Photos|Videos|DVDs}` by kind; with a date the subpath is
`YYYY/YYYY-MM/YYYY-MM-DD` and with no date it is the single folder
`UnknownDate`; photos keep their source extension while videos and DVDs target
`.mp4`; the filename is the source stem for photos/videos and the DVD root
directory's own name for DVD items. -/
theorem plan_dst_spec (out_root src : FsPath) (dt : DateTime) (nm e : String) :
    (src.getLast? = some nm → normalize_extension src = some e →
      plan_dst out_root .photo src (some dt) =
        out_root ++ ["Photos", fmtYear dt, fmtYearMonth dt, fmtYMD dt,
          (splitLastDot nm).1 ++ "." ++ e]) ∧
    (src.getLast? = some nm →
      plan_dst out_root .video src (some dt) =
        out_root ++ ["Videos", fmtYear dt, fmtYearMonth dt, fmtYMD dt,
          (splitLastDot nm).1 ++ ".mp4"]) ∧
    (src.getLast? = some nm →
      plan_dst out_root .dvd src (some dt) =
        out_root ++ ["DVDs", fmtYear dt, fmtYearMonth dt, fmtYMD dt, nm ++ ".mp4"]) ∧
    (src.getLast? = some nm → normalize_extension src = some e →
      plan_dst out_root .photo src none =
        out_root ++ ["Photos", "UnknownDate", (splitLastDot nm).1 ++ "." ++ e]) ∧
    (src.getLast? = some nm →
      plan_dst out_root .video src none =
        out_root ++ ["Videos", "UnknownDate", (splitLastDot nm).1 ++ ".mp4"]) ∧
    (src.getLast? = some nm →
      plan_dst out_root .dvd src none =
        out_root ++ ["DVDs", "UnknownDate", nm ++ ".mp4"]) := by
  have hmp4 : ∀ s : String, s ++ "." ++ "mp4" = s ++ ".mp4" := by
    intro s
    apply congrArg String.mk
    show (s.data ++ ".".data) ++ "mp4".data = s.data ++ ".mp4".data
    rw [List.append_assoc]
    rfl
  refine ⟨?_, ?_, ?_, ?_, ?_, ?_⟩
  · intro h1 h2
    simp [plan_dst, safe_stem, fileNameOf, h1, h2, fmtYear_ne_unknown dt]
  · intro h1
    simp [plan_dst, safe_stem, fileNameOf, h1, fmtYear_ne_unknown dt, hmp4]
  · intro h1
    simp [plan_dst, safe_stem, fileNameOf, h1, fmtYear_ne_unknown dt, hmp4]
  · intro h1 h2
    simp [plan_dst, safe_stem, fileNameOf, h1, h2]
  · intro h1
    simp [plan_dst, safe_stem, fileNameOf, h1, hmp4]
  · intro h1
    simp [plan_dst, safe_stem, fileNameOf, h1, hmp4]

theorem plan_dst_spec_witness :
    plan_dst ["out"] MediaKind.photo ["in", "a.jpg"] (some ⟨2020, 5, 1, 3, 4, 5⟩) =
      ["out", "Photos", "2020", "2020-05", "2020-05-01", "a.jpg"] ∧
    plan_dst ["out"] MediaKind.video ["in", "m.avi"] none =
      ["out", "Videos", "UnknownDate", "m.mp4"] ∧
    plan_dst ["out"] MediaKind.dvd ["in", "MOVIE"] (some ⟨1999, 12, 31, 0, 0, 0⟩) =
      ["out", "DVDs", "1999", "1999-12", "1999-12-31", "MOVIE.mp4"] := by
  refine ⟨?_, ?_, ?_⟩
  · exact ((plan_dst_spec ["out"] ["in", "a.jpg"] ⟨2020, 5, 1, 3, 4, 5⟩ "a.jpg" "jpg").1
      rfl rfl).trans (by decide)
  · exact ((plan_dst_spec ["out"] ["in", "m.avi"] ⟨2020, 5, 1, 3, 4, 5⟩ "m.avi"
      "avi").2.2.2.2.1 rfl).trans (by decide)
  · exact ((plan_dst_spec ["out"] ["in", "MOVIE"] ⟨1999, 12, 31, 0, 0, 0⟩ "MOVIE"
      "x").2.2.1 rfl).trans (by decide)

/-! Date-resolution error policy (claim C1). -/

/-- The modification-time fallback of the date resolver. -/
def mtimeResolution (env : Env) (p : FsPath) : Option DateTime × DateSource :=
  match file_mtime env p with
  | some dt => (some dt, DateSource.mtime)
  | Option.none => (Option.none, DateSource.none)

/-- An environment in which every `File::open` fails, the probe exits
non-zero, and no modification time is available. -/
def cexEnv : Env where
  openOk := fun _ => false
  exifData := fun _ => none
  probe := fun _ => .statusFail
  mtime := fun _ => none
  fileContent := fun _ => some ""
  fileSize := fun _ => none
  dvdMainTitleVobs := fun _ => .ok []

/-- Claim C1 counterexample: a file-open failure in the EXIF reader is NOT
treated as absence of a date — it aborts `build_plan` with an error, and the
remaining file (`in/c.png`) is never planned.  This refutes the claim that
collaborator errors never cause `build_plan` to return an error. -/
theorem build_plan_error_on_exif_open_failure_cex :
    build_plan cexEnv
      [WalkEntry.ok ["in", "a.jpg"] FileType.file,
       WalkEntry.ok ["in", "c.png"] FileType.file] ["out"] =
      .error PlanError.exifOpen := by
  rfl

/-- Claim C1 as amended: an EXIF container-read failure, an EXIF timestamp
parse failure, a probe non-success exit status, and a `creation_time` parse
failure are each treated as absence of a date from that source and cascade to
the modification-time fallback; but a file-open failure in the EXIF reader, a
probe subprocess spawn failure, or a probe stdout JSON parse failure is
returned as an error from date resolution and propagates out of `build_plan`,
aborting planning of that file and of the remaining files. -/
theorem date_resolution_error_policy (env : Env) (p : FsPath) (ed : ExifData)
    (ct : Option String) (rest : List WalkEntry) (out : FsPath) :
    (env.openOk p = true → env.exifData p = none →
      exif_capture_datetime env p = .ok none) ∧
    (env.openOk p = true → env.exifData p = some ed →
      ed.dateTimeOriginal.bind parse_exif_datetime = none →
      ed.dateTime.bind parse_exif_datetime = none →
      exif_capture_datetime env p = .ok none) ∧
    (env.probe p = .statusFail → ffprobe_creation_time env p = .ok none) ∧
    (env.probe p = .json ct → ct.bind parseRfc3339 = none →
      ffprobe_creation_time env p = .ok none) ∧
    (classify p = .photo → is_jpeg p = true → env.openOk p = true →
      env.exifData p = none →
      best_datetime_for_file env p = .ok (mtimeResolution env p)) ∧
    (classify p = .video → env.probe p = .statusFail →
      best_datetime_for_file env p = .ok (mtimeResolution env p)) ∧
    (classify p = .photo → is_jpeg p = true → env.openOk p = false →
      best_datetime_for_file env p = .error .exifOpen) ∧
    (classify p = .video → env.probe p = .spawnFail →
      best_datetime_for_file env p = .error .probeSpawn) ∧
    (classify p = .video → env.probe p = .badJson →
      best_datetime_for_file env p = .error .probeJson) ∧
    (classify p = .photo → is_jpeg p = true → is_inside_video_ts p = false →
      env.openOk p = false →
      build_plan env (WalkEntry.ok p .file :: rest) out = .error .exifOpen) := by
  refine ⟨?_, ?_, ?_, ?_, ?_, ?_, ?_, ?_, ?_, ?_⟩
  · intro h1 h2
    simp [exif_capture_datetime, h1, h2]
  · intro h1 h2 h3 h4
    simp [exif_capture_datetime, h1, h2, h3, h4]
  · intro h1
    simp [ffprobe_creation_time, h1]
  · intro h1 h2
    simp [ffprobe_creation_time, h1, h2]
  · intro hcl hj h1 h2
    cases hm : env.mtime p with
    | some dt =>
      simp [best_datetime_for_file, hcl, hj, exif_capture_datetime, h1, h2,
        mtimeResolution, file_mtime, hm, Except.bind]
    | none =>
      simp [best_datetime_for_file, hcl, hj, exif_capture_datetime, h1, h2,
        mtimeResolution, file_mtime, hm, Except.bind]
  · intro hcl h1
    cases hm : env.mtime p with
    | some dt =>
      simp [best_datetime_for_file, hcl, ffprobe_creation_time, h1,
        mtimeResolution, file_mtime, hm, Except.bind]
    | none =>
      simp [best_datetime_for_file, hcl, ffprobe_creation_time, h1,
        mtimeResolution, file_mtime, hm, Except.bind]
  · intro hcl hj h1
    simp [best_datetime_for_file, hcl, hj, exif_capture_datetime, h1, Except.bind]
  · intro hcl h1
    simp [best_datetime_for_file, hcl, ffprobe_creation_time, h1, Except.bind]
  · intro hcl h1
    simp [best_datetime_for_file, hcl, ffprobe_creation_time, h1, Except.bind]
  · intro hcl hj hvts h1
    have hbest : best_datetime_for_file env p = .error .exifOpen := by
      simp [best_datetime_for_file, hcl, hj, exif_capture_datetime, h1, Except.bind]
    simp [build_plan, buildWalk, buildStep, buildPhotoStep, hvts, hcl, hbest,
      Except.map, Except.bind]

/-- An environment whose EXIF container holds only unparseable values, whose
probe returns parseable-JSON output with a garbage `creation_time`, and whose
modification times are available. -/
def witEnvSoft : Env where
  openOk := fun _ => true
  exifData := fun _ => some ⟨some (.ascii ["not a date"]), some .other⟩
  probe := fun _ => .json (some "garbage")
  mtime := fun _ => some ⟨2020, 5, 1, 0, 0, 0⟩
  fileContent := fun _ => some ""
  fileSize := fun _ => none
  dvdMainTitleVobs := fun _ => .ok []

/-- An environment whose probe subprocess fails to spawn. -/
def witEnvSpawn : Env :=
  { witEnvSoft with probe := fun _ => .spawnFail }

/-- An environment whose probe stdout is not parseable JSON. -/
def witEnvJson : Env :=
  { witEnvSoft with probe := fun _ => .badJson }

/-- An environment like `witEnvSoft` but with no EXIF container data. -/
def witEnvNoExif : Env :=
  { witEnvSoft with exifData := fun _ => none, probe := fun _ => .statusFail }

theorem date_resolution_error_policy_witness :
    exif_capture_datetime witEnvNoExif ["in", "a.jpg"] = .ok none ∧
    exif_capture_datetime witEnvSoft ["in", "a.jpg"] = .ok none ∧
    ffprobe_creation_time witEnvNoExif ["in", "m.mp4"] = .ok none ∧
    ffprobe_creation_time witEnvSoft ["in", "m.mp4"] = .ok none ∧
    best_datetime_for_file witEnvNoExif ["in", "a.jpg"] =
      .ok (some ⟨2020, 5, 1, 0, 0, 0⟩, DateSource.mtime) ∧
    best_datetime_for_file witEnvNoExif ["in", "m.mp4"] =
      .ok (some ⟨2020, 5, 1, 0, 0, 0⟩, DateSource.mtime) ∧
    best_datetime_for_file cexEnv ["in", "a.jpg"] = .error .exifOpen ∧
    best_datetime_for_file witEnvSpawn ["in", "m.mp4"] = .error .probeSpawn ∧
    best_datetime_for_file witEnvJson ["in", "m.mp4"] = .error .probeJson ∧
    build_plan cexEnv [WalkEntry.ok ["in", "b.jpeg"] FileType.file] ["out"] =
      .error .exifOpen := by
  refine ⟨?_, ?_, ?_, ?_, ?_, ?_, ?_, ?_, ?_, ?_⟩
  · exact (date_resolution_error_policy witEnvNoExif ["in", "a.jpg"] ⟨none, none⟩
      none [] []).1 rfl rfl
  · exact (date_resolution_error_policy witEnvSoft ["in", "a.jpg"]
      ⟨some (.ascii ["not a date"]), some .other⟩ none [] []).2.1 rfl rfl rfl rfl
  · exact (date_resolution_error_policy witEnvNoExif ["in", "m.mp4"] ⟨none, none⟩
      none [] []).2.2.1 rfl
  · exact (date_resolution_error_policy witEnvSoft ["in", "m.mp4"] ⟨none, none⟩
      (some "garbage") [] []).2.2.2.1 rfl rfl
  · exact ((date_resolution_error_policy witEnvNoExif ["in", "a.jpg"] ⟨none, none⟩
      none [] []).2.2.2.2.1 rfl rfl rfl rfl).trans rfl
  · exact ((date_resolution_error_policy witEnvNoExif ["in", "m.mp4"] ⟨none, none⟩
      none [] []).2.2.2.2.2.1 rfl rfl).trans rfl
  · exact (date_resolution_error_policy cexEnv ["in", "a.jpg"] ⟨none, none⟩
      none [] []).2.2.2.2.2.2.1 rfl rfl rfl
  · exact (date_resolution_error_policy witEnvSpawn ["in", "m.mp4"] ⟨none, none⟩
      none [] []).2.2.2.2.2.2.2.1 rfl rfl
  · exact (date_resolution_error_policy witEnvJson ["in", "m.mp4"] ⟨none, none⟩
      none [] []).2.2.2.2.2.2.2.2.1 rfl rfl
  · exact (date_resolution_error_policy cexEnv ["in", "b.jpeg"] ⟨none, none⟩
      none [] ["out"]).2.2.2.2.2.2.2.2.2 rfl rfl rfl rfl

/-! DVD promotion during plan building (claim C7). -/

/-- What the walk loop does to the DVD-root set at one entry. -/
def dvdRootsStep (roots : List FsPath) (e : WalkEntry) : List FsPath :=
  match e with
  | .ok p .dir =>
    match dvd_root_from_video_ts_dir p with
    | some r => insertRoot roots r
    | Option.none => roots
  | _ => roots

/-- The DVD roots a walk collects: one entry per distinct parent of a
directory named `VIDEO_TS`, in first-encounter order. -/
def dvdRootsOf (entries : List WalkEntry) : List FsPath :=
  entries.foldl dvdRootsStep []

/-- The ConvertDvd item the DVD loop appends for one root. -/
def mkDvdItem (env : Env) (out_root : FsPath) (root : FsPath) : PlannedItem :=
  { kind := .dvd, action := .convertDvd, src := pathToString root,
    dst := pathToString (plan_dst out_root .dvd root (best_datetime_for_dvd env root).1),
    best_dt := (best_datetime_for_dvd env root).1.map format_dt,
    date_source := (best_datetime_for_dvd env root).2,
    size_bytes := none, content_hash := none, duplicate_of := none }

/-- The form of every item the walk loop itself appends: a photo or video
file, not inside any `VIDEO_TS` directory, with its path string as source. -/
def walkItemShape (entries : List WalkEntry) (it : PlannedItem) : Prop :=
  ∃ p, WalkEntry.ok p FileType.file ∈ entries ∧ it.src = pathToString p ∧
    is_inside_video_ts p = false ∧
    ((classify p = Kind.photo ∧ it.kind = MediaKind.photo) ∨
     (classify p = Kind.video ∧ it.kind = MediaKind.video))

theorem buildStep_ok_char (env : Env) (out : FsPath) (acc acc2 : BuildAcc)
    (e : WalkEntry) (hok : buildStep env out acc e = .ok acc2) :
    acc2.dvdRoots = dvdRootsStep acc.dvdRoots e ∧
    (acc2.planned = acc.planned ∨
      ∃ it, acc2.planned = acc.planned ++ [it] ∧
        ∃ p, e = WalkEntry.ok p FileType.file ∧ it.src = pathToString p ∧
          is_inside_video_ts p = false ∧
          ((classify p = Kind.photo ∧ it.kind = MediaKind.photo) ∨
           (classify p = Kind.video ∧ it.kind = MediaKind.video))) := by
  cases e with
  | err =>
    have hok2 : Except.ok (ε := PlanError) acc = Except.ok acc2 := hok
    cases hok2
    exact ⟨rfl, Or.inl rfl⟩
  | ok p ft =>
    cases ft with
    | dir =>
      have hok2 : (match dvd_root_from_video_ts_dir p with
          | some r => Except.ok (ε := PlanError) { acc with dvdRoots := insertRoot acc.dvdRoots r }
          | Option.none => Except.ok acc) = Except.ok acc2 := hok
      cases hdr : dvd_root_from_video_ts_dir p with
      | some r =>
        rw [hdr] at hok2
        cases hok2
        refine ⟨?_, Or.inl rfl⟩
        simp [dvdRootsStep, hdr]
      | none =>
        rw [hdr] at hok2
        cases hok2
        refine ⟨?_, Or.inl rfl⟩
        simp [dvdRootsStep, hdr]
    | other =>
      have hok2 : Except.ok (ε := PlanError) acc = Except.ok acc2 := hok
      cases hok2
      exact ⟨rfl, Or.inl rfl⟩
    | file =>
      have hok2 : (if is_inside_video_ts p then Except.ok (ε := PlanError) acc
          else match classify p with
            | Kind.photo => buildPhotoStep env out acc p
            | Kind.video => buildVideoStep env out acc p
            | _ => Except.ok acc) = Except.ok acc2 := hok
      cases hv : is_inside_video_ts p with
      | true =>
        rw [hv] at hok2
        simp only [if_true] at hok2
        cases hok2
        exact ⟨rfl, Or.inl rfl⟩
      | false =>
        rw [hv] at hok2
        simp only [Bool.false_eq_true, if_false] at hok2
        cases hc : classify p with
        | photo =>
          rw [hc] at hok2
          have hok3 : buildPhotoStep env out acc p = Except.ok acc2 := hok2
          cases hb : best_datetime_for_file env p with
          | error er => rw [buildPhotoStep, hb] at hok3; cases hok3
          | ok v =>
            rw [buildPhotoStep, hb] at hok3
            simp only [Except.map, Except.ok.injEq] at hok3
            subst hok3
            exact ⟨rfl, Or.inr ⟨_, rfl, p, rfl, rfl, hv, Or.inl ⟨hc, rfl⟩⟩⟩
        | video =>
          rw [hc] at hok2
          have hok3 : buildVideoStep env out acc p = Except.ok acc2 := hok2
          cases hb : best_datetime_for_file env p with
          | error er => rw [buildVideoStep, hb] at hok3; cases hok3
          | ok v =>
            rw [buildVideoStep, hb] at hok3
            simp only [Except.map, Except.ok.injEq] at hok3
            subst hok3
            exact ⟨rfl, Or.inr ⟨_, rfl, p, rfl, rfl, hv, Or.inr ⟨hc, rfl⟩⟩⟩
        | dvd =>
          rw [hc] at hok2
          have hok3 : Except.ok (ε := PlanError) acc = Except.ok acc2 := hok2
          cases hok3
          exact ⟨rfl, Or.inl rfl⟩
        | ignore =>
          rw [hc] at hok2
          have hok3 : Except.ok (ε := PlanError) acc = Except.ok acc2 := hok2
          cases hok3
          exact ⟨rfl, Or.inl rfl⟩

theorem buildWalk_ok_char (env : Env) (out : FsPath) (entries : List WalkEntry)
    (acc acc2 : BuildAcc) (hok : buildWalk env out acc entries = .ok acc2) :
    acc2.dvdRoots = entries.foldl dvdRootsStep acc.dvdRoots ∧
    ∀ it ∈ acc2.planned, it ∈ acc.planned ∨ walkItemShape entries it := by
  induction entries generalizing acc with
  | nil =>
    simp only [buildWalk, Except.ok.injEq] at hok
    subst hok
    exact ⟨rfl, fun it hmem => Or.inl hmem⟩
  | cons e es ih =>
    rw [buildWalk] at hok
    cases hs : buildStep env out acc e with
    | error er => rw [hs] at hok; cases hok
    | ok acc1 =>
      rw [hs] at hok
      simp only [Except.bind] at hok
      have hstep := buildStep_ok_char env out acc acc1 e hs
      have hrec := ih acc1 hok
      constructor
      · rw [hrec.1, List.foldl_cons, hstep.1]
      · intro it hmem
        rcases hrec.2 it hmem with hin | ⟨p, hp, hrest⟩
        · rcases hstep.2 with hsame | ⟨it2, happ, p, hep, hrest2⟩
          · rw [hsame] at hin
            exact Or.inl hin
          · rw [happ] at hin
            rcases List.mem_append.mp hin with hin2 | hsing
            · exact Or.inl hin2
            · have : it = it2 := List.mem_singleton.mp hsing
              subst this
              exact Or.inr ⟨p, by rw [hep]; exact List.mem_cons_self _ _, hrest2⟩
        · exact Or.inr ⟨p, List.mem_cons_of_mem _ hp, hrest⟩

/-- Back-annotation only updates size, hash and duplicate-of: kind, source,
action and destination are preserved. -/
theorem annotateItem_fields (env : Env) (maps : DupMaps) (it : PlannedItem) :
    (annotateItem env maps it).kind = it.kind ∧ (annotateItem env maps it).src = it.src ∧
    (annotateItem env maps it).action = it.action ∧
    (annotateItem env maps it).dst = it.dst := by
  by_cases h : isDedupKind it.kind = true
  · cases hh : maps.hash.lookup it.src <;> cases hd : maps.dup.lookup it.src <;>
      simp [annotateItem, h, hh, hd]
  · simp [annotateItem, h]

theorem mark_ok_items (env : Env) (planned : List PlannedItem) (summary : PlanSummary)
    (items2 : List PlannedItem) (s2 : PlanSummary)
    (hok : mark_input_duplicates env planned summary = .ok (items2, s2)) :
    ∃ maps, items2 = planned.map (annotateItem env maps) := by
  unfold mark_input_duplicates at hok
  cases hg : find_exact_duplicates env.fileContent (dedupSrcs planned) with
  | error e => rw [hg] at hok; cases hok
  | ok groups =>
    rw [hg] at hok
    simp only [Except.ok.injEq, Prod.mk.injEq] at hok
    exact ⟨dupMapsOf groups, hok.1.symm⟩

theorem addDvdItem_ok (env : Env) (out : FsPath) (st : List PlannedItem × PlanSummary)
    (root : FsPath) (st2 : List PlannedItem × PlanSummary)
    (hok : addDvdItem env out st root = .ok st2) :
    st2.1 = st.1 ++ [mkDvdItem env out root] := by
  unfold addDvdItem at hok
  cases hv : env.dvdMainTitleVobs root with
  | error e => rw [hv] at hok; cases hok
  | ok vobs =>
    rw [hv] at hok
    simp only [Except.map, Except.ok.injEq] at hok
    subst hok
    rfl

theorem addDvdItems_ok (env : Env) (out : FsPath) (roots : List FsPath)
    (st st2 : List PlannedItem × PlanSummary)
    (hok : addDvdItems env out roots st = .ok st2) :
    st2.1 = st.1 ++ roots.map (mkDvdItem env out) := by
  induction roots generalizing st with
  | nil =>
    simp only [addDvdItems, Except.ok.injEq] at hok
    subst hok
    simp
  | cons r rs ih =>
    rw [addDvdItems] at hok
    cases ha : addDvdItem env out st r with
    | error e => rw [ha] at hok; cases hok
    | ok st1 =>
      rw [ha] at hok
      simp only [Except.bind] at hok
      have h1 := addDvdItem_ok env out st r st1 ha
      have h2 := ih st1 hok
      rw [h2, h1, List.map_cons, List.append_assoc]
      rfl

theorem insertRoot_nodup (roots : List FsPath) (r : FsPath) (h : roots.Nodup) :
    (insertRoot roots r).Nodup := by
  unfold insertRoot
  split_ifs with hm
  · exact h
  · rw [List.nodup_append]
    exact ⟨h, List.nodup_singleton r, by
      intro x hx hx2
      rw [List.mem_singleton.mp hx2] at hx
      exact hm hx⟩

theorem dvdRootsStep_nodup (roots : List FsPath) (e : WalkEntry) (h : roots.Nodup) :
    (dvdRootsStep roots e).Nodup := by
  cases e with
  | err => exact h
  | ok p ft =>
    cases ft with
    | file => exact h
    | other => exact h
    | dir =>
      cases hdr : dvd_root_from_video_ts_dir p with
      | some r =>
        have : dvdRootsStep roots (WalkEntry.ok p FileType.dir) = insertRoot roots r := by
          simp [dvdRootsStep, hdr]
        rw [this]
        exact insertRoot_nodup roots r h
      | none =>
        have : dvdRootsStep roots (WalkEntry.ok p FileType.dir) = roots := by
          simp [dvdRootsStep, hdr]
        rw [this]
        exact h

theorem foldl_rootsStep_nodup (entries : List WalkEntry) (roots : List FsPath)
    (h : roots.Nodup) : (entries.foldl dvdRootsStep roots).Nodup := by
  induction entries generalizing roots with
  | nil => exact h
  | cons e es ih => exact ih (dvdRootsStep roots e) (dvdRootsStep_nodup roots e h)

theorem dvdRootsOf_nodup (entries : List WalkEntry) : (dvdRootsOf entries).Nodup :=
  foldl_rootsStep_nodup entries [] List.nodup_nil

/-- Claim C7: for every input tree on which `build_plan` succeeds, the Dvd
items of the plan are exactly one per distinct directory containing a
`VIDEO_TS` subdirectory (rooted at that parent directory, in encounter
order); every non-Dvd planned item stems from a photo- or video-classified
file outside every `VIDEO_TS` directory, so files inside a `VIDEO_TS`
directory and loose vob/ifo/bup files (whose classification is neither photo
nor video) are never planned as standalone items. -/
theorem build_plan_dvd_promotion (env : Env) (entries : List WalkEntry) (out : FsPath)
    (items : List PlannedItem) (s : PlanSummary)
    (hok : build_plan env entries out = .ok (items, s)) :
    (items.filter (fun it => decide (it.kind = MediaKind.dvd))).map PlannedItem.src =
      (dvdRootsOf entries).map pathToString ∧
    (dvdRootsOf entries).Nodup ∧
    (∀ it ∈ items, (it.kind = MediaKind.photo ∨ it.kind = MediaKind.video) →
      ∃ p, WalkEntry.ok p FileType.file ∈ entries ∧ it.src = pathToString p ∧
        is_inside_video_ts p = false ∧
        (classify p = Kind.photo ∨ classify p = Kind.video)) ∧
    (∀ it ∈ items, it.kind = MediaKind.dvd →
      ∃ r ∈ dvdRootsOf entries, it.src = pathToString r) := by
  unfold build_plan at hok
  cases hw : buildWalk env out ⟨[], PlanSummary.new, []⟩ entries with
  | error e => rw [hw] at hok; cases hok
  | ok acc =>
    rw [hw] at hok
    simp only [Except.bind] at hok
    cases hm : mark_input_duplicates env acc.planned acc.summary with
    | error e => rw [hm] at hok; cases hok
    | ok st2 =>
      rw [hm] at hok
      simp only [Except.bind] at hok
      have hchar := buildWalk_ok_char env out entries _ acc hw
      have hroots : acc.dvdRoots = dvdRootsOf entries := hchar.1
      obtain ⟨maps, hitems2⟩ :=
        mark_ok_items env acc.planned acc.summary st2.1 st2.2 hm
      have hadd := addDvdItems_ok env out acc.dvdRoots st2 (items, s) hok
      have hitems : items = st2.1 ++ (dvdRootsOf entries).map (mkDvdItem env out) := by
        rw [← hroots]
        exact hadd
      have hpv : ∀ it2 ∈ st2.1, ∃ it ∈ acc.planned,
          it2.kind = it.kind ∧ it2.src = it.src := by
        rw [hitems2]
        intro it2 hmem
        rcases List.mem_map.mp hmem with ⟨it, hit, heq⟩
        refine ⟨it, hit, ?_, ?_⟩
        · rw [← heq]
          exact (annotateItem_fields env maps it).1
        · rw [← heq]
          exact (annotateItem_fields env maps it).2.1
      have hshape : ∀ it ∈ acc.planned, walkItemShape entries it := by
        intro it h
        rcases hchar.2 it h with hin | hs
        · cases hin
        · exact hs
      have hkpv : ∀ it2 ∈ st2.1,
          it2.kind = MediaKind.photo ∨ it2.kind = MediaKind.video := by
        intro it2 hmem
        obtain ⟨it, hit, hk, _⟩ := hpv it2 hmem
        obtain ⟨p, _, _, _, hkind⟩ := hshape it hit
        rcases hkind with ⟨_, hk0⟩ | ⟨_, hk0⟩
        · exact Or.inl (hk.trans hk0)
        · exact Or.inr (hk.trans hk0)
      have hnil : st2.1.filter (fun it => decide (it.kind = MediaKind.dvd)) = [] := by
        rw [List.filter_eq_nil_iff]
        intro it hmem
        rcases hkpv it hmem with hk | hk <;> simp [hk]
      have hall : ((dvdRootsOf entries).map (mkDvdItem env out)).filter
          (fun it => decide (it.kind = MediaKind.dvd)) =
          (dvdRootsOf entries).map (mkDvdItem env out) := by
        rw [List.filter_eq_self]
        intro it hmem
        rcases List.mem_map.mp hmem with ⟨r, _, heq⟩
        rw [← heq]
        simp [mkDvdItem]
      refine ⟨?_, dvdRootsOf_nodup entries, ?_, ?_⟩
      · rw [hitems, List.filter_append, hnil, hall, List.nil_append, List.map_map]
        rfl
      · intro it hmem hpvk
        rw [hitems] at hmem
        rcases List.mem_append.mp hmem with h1 | h2
        · obtain ⟨it0, hit0, hk, hsrc⟩ := hpv it h1
          obtain ⟨p, hpmem, hsrc0, hvts, hkind⟩ := hshape it0 hit0
          refine ⟨p, hpmem, hsrc.trans hsrc0, hvts, ?_⟩
          rcases hkind with ⟨hc, _⟩ | ⟨hc, _⟩
          · exact Or.inl hc
          · exact Or.inr hc
        · rcases List.mem_map.mp h2 with ⟨r, _, heq⟩
          rcases hpvk with hk | hk <;>
            · rw [← heq] at hk
              simp [mkDvdItem] at hk
      · intro it hmem hdvd
        rw [hitems] at hmem
        rcases List.mem_append.mp hmem with h1 | h2
        · rcases hkpv it h1 with hk | hk <;>
            · rw [hk] at hdvd
              cases hdvd
        · rcases List.mem_map.mp h2 with ⟨r, hr, heq⟩
          refine ⟨r, hr, ?_⟩
          rw [← heq]
          rfl

/-- A concrete plan environment: three jpg files (two byte-identical), all
with a known modification time, no EXIF data, and a DVD tree. -/
def witPlanEnv : Env where
  openOk := fun _ => true
  exifData := fun _ => none
  probe := fun _ => .statusFail
  mtime := fun p =>
    if p = ["in", "a.jpg"] ∨ p = ["in", "b.jpg"] ∨ p = ["in", "c.jpg"] then
      some ⟨2020, 5, 1, 0, 0, 0⟩
    else none
  fileContent := fun s =>
    if s = "in/a.jpg" ∨ s = "in/b.jpg" then some "X"
    else if s = "in/c.jpg" then some "Y" else none
  fileSize := fun s =>
    if s = "in/a.jpg" ∨ s = "in/b.jpg" then some 3
    else if s = "in/c.jpg" then some 7 else none
  dvdMainTitleVobs := fun _ => .ok []

/-- The walker's entries for the concrete scenario: three photos, a
`MOVIE/VIDEO_TS/VTS_01_1.VOB` DVD tree, and a loose VOB outside it. -/
def witPlanEntries : List WalkEntry :=
  [.ok ["in"] .dir,
   .ok ["in", "a.jpg"] .file,
   .ok ["in", "b.jpg"] .file,
   .ok ["in", "c.jpg"] .file,
   .ok ["in", "MOVIE"] .dir,
   .ok ["in", "MOVIE", "VIDEO_TS"] .dir,
   .ok ["in", "MOVIE", "VIDEO_TS", "VTS_01_1.VOB"] .file,
   .ok ["in", "loose.vob"] .file]

/-- The plan `build_plan` produces on the concrete scenario. -/
def witPlanItems : List PlannedItem :=
  [{ kind := .photo, action := .copy, src := "in/a.jpg",
     dst := "out/Photos/2020/2020-05/2020-05-01/a.jpg",
     best_dt := some "2020-05-01 00:00:00", date_source := .mtime,
     size_bytes := some 3, content_hash := some "X", duplicate_of := none },
   { kind := .photo, action := .copy, src := "in/b.jpg",
     dst := "out/Photos/2020/2020-05/2020-05-01/b.jpg",
     best_dt := some "2020-05-01 00:00:00", date_source := .mtime,
     size_bytes := some 3, content_hash := some "X", duplicate_of := some "in/a.jpg" },
   { kind := .photo, action := .copy, src := "in/c.jpg",
     dst := "out/Photos/2020/2020-05/2020-05-01/c.jpg",
     best_dt := some "2020-05-01 00:00:00", date_source := .mtime,
     size_bytes := some 7, content_hash := some "Y", duplicate_of := none },
   { kind := .dvd, action := .convertDvd, src := "in/MOVIE",
     dst := "out/DVDs/UnknownDate/MOVIE.mp4",
     best_dt := none, date_source := .none,
     size_bytes := none, content_hash := none, duplicate_of := none }]

/-- The summary `build_plan` produces on the concrete scenario. -/
def witPlanSummary : PlanSummary := ⟨4, 3, 0, 1, 1, 0, 1, 1, 0⟩

theorem build_plan_dvd_promotion_witness :
    ((witPlanItems.filter (fun it => decide (it.kind = MediaKind.dvd))).map
        PlannedItem.src = (dvdRootsOf witPlanEntries).map pathToString) ∧
    (dvdRootsOf witPlanEntries).Nodup := by
  exact ⟨(build_plan_dvd_promotion witPlanEnv witPlanEntries ["out"] witPlanItems
      witPlanSummary rfl).1,
    (build_plan_dvd_promotion witPlanEnv witPlanEntries ["out"] witPlanItems
      witPlanSummary rfl).2.1⟩

/-! Duplicate marking (claim C3): order lemmas for the group sort. -/

theorem charListLt_irrefl (a : List Char) : charListLt a a = false := by
  induction a with
  | nil => rfl
  | cons x xs ih => simp [charListLt, ih]

theorem charListLt_trans (a b c : List Char) (hab : charListLt a b = true)
    (hbc : charListLt b c = true) : charListLt a c = true := by
  induction a generalizing b c with
  | nil =>
    cases b with
    | nil => exact hbc
    | cons y ys =>
      cases c with
      | nil => simp [charListLt] at hbc
      | cons z zs => rfl
  | cons x xs ih =>
    cases b with
    | nil => simp [charListLt] at hab
    | cons y ys =>
      cases c with
      | nil => simp [charListLt] at hbc
      | cons z zs =>
        simp only [charListLt] at hab hbc ⊢
        split_ifs at hab hbc ⊢ <;>
          first
            | rfl
            | exact ih ys zs hab hbc
            | (exfalso; omega)

theorem charListLt_eq_of_not (a b : List Char) (hab : charListLt a b = false)
    (hba : charListLt b a = false) : a = b := by
  induction a generalizing b with
  | nil =>
    cases b with
    | nil => rfl
    | cons y ys => simp [charListLt] at hab
  | cons x xs ih =>
    cases b with
    | nil => simp [charListLt] at hba
    | cons y ys =>
      simp only [charListLt] at hab hba
      by_cases h1 : x.toNat < y.toNat
      · simp [h1] at hab
      · by_cases h2 : y.toNat < x.toNat
        · simp [h1, h2] at hba
        · simp [h1, h2] at hab hba
          have hxy : x = y := by
            have hn : x.toNat = y.toNat := by omega
            have := congrArg Char.ofNat hn
            rwa [Char.ofNat_toNat, Char.ofNat_toNat] at this
          rw [hxy, ih ys hab hba]

theorem pathCompsLe_refl (a : List String) : pathCompsLe a a = true := by
  induction a with
  | nil => rfl
  | cons x xs ih => simp [pathCompsLe, charListLt_irrefl, ih]

theorem pathCompsLe_total (a b : List String) :
    pathCompsLe a b = true ∨ pathCompsLe b a = true := by
  induction a generalizing b with
  | nil => exact Or.inl rfl
  | cons x xs ih =>
    cases b with
    | nil => exact Or.inr rfl
    | cons y ys =>
      cases hxy : charListLt x.data y.data with
      | true => exact Or.inl (by simp [pathCompsLe, hxy])
      | false =>
        cases hyx : charListLt y.data x.data with
        | true => exact Or.inr (by simp [pathCompsLe, hyx])
        | false =>
          rcases ih ys with h | h
          · exact Or.inl (by simp [pathCompsLe, hxy, hyx, h])
          · exact Or.inr (by simp [pathCompsLe, hxy, hyx, h])

theorem pathCompsLe_trans (a b c : List String) (hab : pathCompsLe a b = true)
    (hbc : pathCompsLe b c = true) : pathCompsLe a c = true := by
  induction a generalizing b c with
  | nil => rfl
  | cons x xs ih =>
    cases b with
    | nil => simp [pathCompsLe] at hab
    | cons y ys =>
      cases c with
      | nil => simp [pathCompsLe] at hbc
      | cons z zs =>
        cases hxy : charListLt x.data y.data with
        | true =>
          cases hyz : charListLt y.data z.data with
          | true =>
            have := charListLt_trans x.data y.data z.data hxy hyz
            simp [pathCompsLe, this]
          | false =>
            cases hzy : charListLt z.data y.data with
            | true => simp [pathCompsLe, hyz, hzy] at hbc
            | false =>
              have hEq : y = z := String.ext (charListLt_eq_of_not y.data z.data hyz hzy)
              subst hEq
              simp [pathCompsLe, hxy]
        | false =>
          cases hyx : charListLt y.data x.data with
          | true => simp [pathCompsLe, hxy, hyx] at hab
          | false =>
            have hEq : x = y := String.ext (charListLt_eq_of_not x.data y.data hxy hyx)
            subst hEq
            have hirr := charListLt_irrefl x.data
            simp only [pathCompsLe, hirr, if_false] at hab
            cases hxz : charListLt x.data z.data with
            | true => simp [pathCompsLe, hxz]
            | false =>
              cases hzx : charListLt z.data x.data with
              | true => simp [pathCompsLe, hxz, hzx] at hbc
              | false =>
                simp only [pathCompsLe, hxz, hzx, if_false] at hbc ⊢
                exact ih ys zs hab hbc

theorem pathLe_refl (a : String) : pathLe a a = true :=
  pathCompsLe_refl (splitPath a)

theorem pathLe_total (a b : String) : pathLe a b = true ∨ pathLe b a = true :=
  pathCompsLe_total (splitPath a) (splitPath b)

theorem pathLe_trans (a b c : String) (hab : pathLe a b = true)
    (hbc : pathLe b c = true) : pathLe a c = true :=
  pathCompsLe_trans (splitPath a) (splitPath b) (splitPath c) hab hbc

instance : IsTotal String (fun a b => pathLe a b = true) := ⟨pathLe_total⟩

instance : IsTrans String (fun a b => pathLe a b = true) :=
  ⟨fun a b c => pathLe_trans a b c⟩

theorem sortPaths_sorted (l : List String) :
    List.Sorted (fun a b => pathLe a b = true) (sortPaths l) :=
  List.sorted_insertionSort (fun a b => pathLe a b = true) l

theorem sortPaths_perm (l : List String) : (sortPaths l).Perm l :=
  List.perm_insertionSort (fun a b => pathLe a b = true) l

theorem sortPaths_mem (l : List String) (q : String) :
    q ∈ sortPaths l ↔ q ∈ l :=
  (sortPaths_perm l).mem_iff

theorem sortPaths_head_min (l : List String) (c : String) (rest : List String)
    (hsort : sortPaths l = c :: rest) : c ∈ l ∧ ∀ q ∈ l, pathLe c q = true := by
  have hs := sortPaths_sorted l
  rw [hsort] at hs
  have hc : c ∈ l := (sortPaths_mem l c).mp (by rw [hsort]; exact List.mem_cons_self _ _)
  refine ⟨hc, fun q hq => ?_⟩
  have hq2 : q ∈ c :: rest := by
    rw [← hsort]
    exact (sortPaths_mem l q).mpr hq
  rcases List.mem_cons.mp hq2 with heq | hmem
  · subst heq
    exact pathLe_refl q
  · exact (List.sorted_cons.mp hs).1 q hmem

theorem sortPaths_nodup (l : List String) (h : l.Nodup) : (sortPaths l).Nodup :=
  h.perm (sortPaths_perm l).symm

/-! Lookup characterization of the duplicate / hash maps. -/

theorem groupFold_inner (rest : List String) (canon h : String) (acc : DupMaps)
    (q : String) :
    ((rest.foldl (fun a p => (⟨(p, canon) :: a.dup, (p, h) :: a.hash⟩ : DupMaps))
        acc).dup.lookup q = if q ∈ rest then some canon else acc.dup.lookup q) ∧
    ((rest.foldl (fun a p => (⟨(p, canon) :: a.dup, (p, h) :: a.hash⟩ : DupMaps))
        acc).hash.lookup q = if q ∈ rest then some h else acc.hash.lookup q) := by
  induction rest generalizing acc with
  | nil => simp
  | cons r rs ih =>
    rw [List.foldl_cons]
    have hrec := ih ⟨(r, canon) :: acc.dup, (r, h) :: acc.hash⟩
    constructor
    · rw [hrec.1]
      by_cases hq : q ∈ rs
      · simp [hq]
      · by_cases hqr : q = r
        · subst hqr
          simp [hq, List.lookup_cons]
        · have hbeq : (q == r) = false := by simp [hqr]
          simp [hq, hqr, List.lookup_cons, hbeq]
    · rw [hrec.2]
      by_cases hq : q ∈ rs
      · simp [hq]
      · by_cases hqr : q = r
        · subst hqr
          simp [hq, List.lookup_cons]
        · have hbeq : (q == r) = false := by simp [hqr]
          simp [hq, hqr, List.lookup_cons, hbeq]

theorem addGroup_lookup (acc : DupMaps) (hg : String × List String) (c : String)
    (rest : List String) (hsort : sortPaths hg.2 = c :: rest) (q : String) :
    ((addGroup acc hg).dup.lookup q =
      if q ∈ rest then some c else acc.dup.lookup q) ∧
    ((addGroup acc hg).hash.lookup q =
      if q ∈ c :: rest then some hg.1 else acc.hash.lookup q) := by
  unfold addGroup
  rw [hsort]
  have hinner := groupFold_inner rest c hg.1 ⟨acc.dup, (c, hg.1) :: acc.hash⟩ q
  constructor
  · exact hinner.1
  · rw [hinner.2]
    by_cases hq : q ∈ rest
    · simp [hq]
    · by_cases hqc : q = c
      · subst hqc
        simp [hq, List.lookup_cons]
      · have hbeq : (q == c) = false := by simp [hqc]
        simp [hq, hqc, List.lookup_cons, hbeq]

theorem addGroup_lookup_nil (acc : DupMaps) (hg : String × List String)
    (hsort : sortPaths hg.2 = []) : addGroup acc hg = acc := by
  unfold addGroup
  rw [hsort]

/-- Groups not containing `q` leave both of `q`'s map entries untouched. -/
theorem groups_fold_preserve (groups : List (String × List String)) (acc : DupMaps)
    (q : String) (hq : ∀ hg ∈ groups, q ∉ hg.2) :
    ((groups.foldl addGroup acc).dup.lookup q = acc.dup.lookup q) ∧
    ((groups.foldl addGroup acc).hash.lookup q = acc.hash.lookup q) := by
  induction groups generalizing acc with
  | nil => exact ⟨rfl, rfl⟩
  | cons g gs ih =>
    rw [List.foldl_cons]
    have hq0 : q ∉ g.2 := hq g (List.mem_cons_self _ _)
    have hstep : ((addGroup acc g).dup.lookup q = acc.dup.lookup q) ∧
        ((addGroup acc g).hash.lookup q = acc.hash.lookup q) := by
      cases hsg : sortPaths g.2 with
      | nil => rw [addGroup_lookup_nil acc g hsg]; exact ⟨rfl, rfl⟩
      | cons c rest =>
        have hqs : q ∉ c :: rest := by
          intro hmem
          exact hq0 ((sortPaths_mem g.2 q).mp (by rw [hsg]; exact hmem))
        have hqr : q ∉ rest := fun hmem => hqs (List.mem_cons_of_mem _ hmem)
        have hl := addGroup_lookup acc g c rest hsg q
        exact ⟨by rw [hl.1, if_neg hqr], by rw [hl.2, if_neg hqs]⟩
    have hrec := ih (addGroup acc g) (fun hg hmem => hq hg (List.mem_cons_of_mem _ hmem))
    exact ⟨hrec.1.trans hstep.1, hrec.2.trans hstep.2⟩

/-- If no group's sorted tail contains `q`, `q` never receives a
`duplicate_of` entry. -/
theorem groups_fold_dup_preserve (groups : List (String × List String))
    (acc : DupMaps) (q : String)
    (hq : ∀ hg ∈ groups, ∀ c rest, sortPaths hg.2 = c :: rest → q ∉ rest) :
    (groups.foldl addGroup acc).dup.lookup q = acc.dup.lookup q := by
  induction groups generalizing acc with
  | nil => rfl
  | cons g gs ih =>
    rw [List.foldl_cons]
    have hstep : (addGroup acc g).dup.lookup q = acc.dup.lookup q := by
      cases hsg : sortPaths g.2 with
      | nil => rw [addGroup_lookup_nil acc g hsg]
      | cons c rest =>
        rw [(addGroup_lookup acc g c rest hsg q).1,
          if_neg (hq g (List.mem_cons_self _ _) c rest hsg)]
    have hrec := ih (addGroup acc g)
      (fun hg hmem c rest hs => hq hg (List.mem_cons_of_mem _ hmem) c rest hs)
    exact hrec.trans hstep

/-- Once the group containing `q` is processed, `q`'s entries are its group's
canonical element and hash, provided no later group contains `q`. -/
theorem groups_fold_found (content : String → Option String)
    (groups : List (String × List String))
    (huniq : ∀ hg ∈ groups, ∀ q0 ∈ hg.2, content q0 = some hg.1)
    (hkeys : (groups.map Prod.fst).Nodup) :
    ∀ h g, (h, g) ∈ groups → ∀ c rest, sortPaths g = c :: rest → ∀ acc q,
      (q ∈ rest → (groups.foldl addGroup acc).dup.lookup q = some c) ∧
      (q ∈ c :: rest → (groups.foldl addGroup acc).hash.lookup q = some h) := by
  induction groups with
  | nil => intro h g hmem; cases hmem
  | cons g0 gs ih =>
    intro h g hmem c rest hsort acc q
    rcases List.mem_cons.mp hmem with heq | hmemgs
    · have hg01 : g0.1 = h := by rw [← heq]
      have hg02 : g0.2 = g := by rw [← heq]
      have hnotlater : ∀ (hq : q ∈ c :: rest), ∀ hg ∈ gs, q ∉ hg.2 := by
        intro hqmem hg hgmem hqin
        have hqg : q ∈ g := (sortPaths_mem g q).mp (by rw [hsort]; exact hqmem)
        have hc1 : content q = some h := by
          have := huniq g0 (List.mem_cons_self _ _) q (by rw [hg02]; exact hqg)
          rw [hg01] at this
          exact this
        have hc2 : content q = some hg.1 :=
          huniq hg (List.mem_cons_of_mem _ hgmem) q hqin
        have hfst : hg.1 = h := by
          rw [hc1] at hc2
          exact (Option.some.injEq _ _).mp hc2.symm
        have hin : h ∈ gs.map Prod.fst := by
          rw [← hfst]
          exact List.mem_map.mpr ⟨hg, hgmem, rfl⟩
        rw [List.map_cons, hg01] at hkeys
        exact (List.nodup_cons.mp hkeys).1 hin
      rw [List.foldl_cons]
      constructor
      · intro hqr
        have hpres := (groups_fold_preserve gs (addGroup acc g0) q
          (hnotlater (List.mem_cons_of_mem _ hqr))).1
        rw [hpres, (addGroup_lookup acc g0 c rest (by rw [hg02]; exact hsort) q).1,
          if_pos hqr]
      · intro hqcr
        have hpres := (groups_fold_preserve gs (addGroup acc g0) q
          (hnotlater hqcr)).2
        rw [hpres, (addGroup_lookup acc g0 c rest (by rw [hg02]; exact hsort) q).2,
          if_pos hqcr, hg01]
    · rw [List.foldl_cons]
      exact ih (fun hg hmem2 => huniq hg (List.mem_cons_of_mem _ hmem2))
        ((List.nodup_cons.mp (by rw [List.map_cons] at hkeys; exact hkeys)).2)
        h g hmemgs c rest hsort (addGroup acc g0) q

/-! Facts about the modelled duplicate detector's output. -/

theorem find_ok_shape (content : String → Option String) (paths : List String)
    (groups : List (String × List String))
    (hok : find_exact_duplicates content paths = .ok groups) :
    groups = ((paths.filterMap content).dedup).map
      (fun h => (h, paths.filter (fun q => content q == some h))) ∧
    ∀ q ∈ paths, (content q).isSome = true := by
  unfold find_exact_duplicates at hok
  split_ifs at hok with hall
  refine ⟨?_, fun q hq => List.all_eq_true.mp hall q hq⟩
  injection hok with hinj
  exact hinj.symm

theorem find_ok_keys_nodup (content : String → Option String) (paths : List String)
    (groups : List (String × List String))
    (hok : find_exact_duplicates content paths = .ok groups) :
    (groups.map Prod.fst).Nodup := by
  rw [(find_ok_shape content paths groups hok).1, List.map_map]
  have : (Prod.fst ∘ fun h => (h, paths.filter (fun q => content q == some h))) =
      (id : String → String) := funext fun h => rfl
  rw [this, List.map_id]
  exact List.nodup_dedup _

theorem find_ok_group_mem (content : String → Option String) (paths : List String)
    (groups : List (String × List String))
    (hok : find_exact_duplicates content paths = .ok groups)
    (hg2 : String × List String) (hmem : hg2 ∈ groups) :
    hg2.2 = paths.filter (fun q => content q == some hg2.1) ∧
    (∃ q ∈ paths, content q = some hg2.1) := by
  have hshape := (find_ok_shape content paths groups hok).1
  rw [hshape] at hmem
  rcases List.mem_map.mp hmem with ⟨h, hh, heq⟩
  have h1 : hg2.1 = h := by rw [← heq]
  have h2 : hg2.2 = paths.filter (fun q => content q == some h) := by rw [← heq]
  constructor
  · rw [h2, h1]
  · have : h ∈ paths.filterMap content := List.mem_dedup.mp hh
    rcases List.mem_filterMap.mp this with ⟨q, hq, hcq⟩
    exact ⟨q, hq, by rw [h1]; exact hcq⟩

theorem find_ok_mem_group (content : String → Option String) (paths : List String)
    (groups : List (String × List String))
    (hok : find_exact_duplicates content paths = .ok groups)
    (q : String) (hq : q ∈ paths) (h : String) (hcq : content q = some h) :
    (h, paths.filter (fun q2 => content q2 == some h)) ∈ groups ∧
    q ∈ paths.filter (fun q2 => content q2 == some h) := by
  have hshape := (find_ok_shape content paths groups hok).1
  constructor
  · rw [hshape]
    refine List.mem_map.mpr ⟨h, ?_, rfl⟩
    exact List.mem_dedup.mpr (List.mem_filterMap.mpr ⟨q, hq, hcq⟩)
  · exact List.mem_filter.mpr ⟨hq, by simp [hcq]⟩

theorem find_ok_group_uniq (content : String → Option String) (paths : List String)
    (groups : List (String × List String))
    (hok : find_exact_duplicates content paths = .ok groups) :
    ∀ hg ∈ groups, ∀ q0 ∈ hg.2, content q0 = some hg.1 := by
  intro hg hmem q0 hq0
  have hgm := (find_ok_group_mem content paths groups hok hg hmem).1
  rw [hgm] at hq0
  have := (List.mem_filter.mp hq0).2
  simpa using this

theorem dupMapsOf_eq (groups : List (String × List String)) :
    dupMapsOf groups = groups.foldl addGroup ⟨[], []⟩ := rfl

/-- The field values of a back-annotated eligible item. -/
theorem annotateItem_eq (env : Env) (maps : DupMaps) (it : PlannedItem)
    (h : isDedupKind it.kind = true) :
    (annotateItem env maps it).size_bytes = env.fileSize it.src ∧
    (annotateItem env maps it).content_hash =
      (match maps.hash.lookup it.src with
       | some h0 => some h0
       | Option.none => it.content_hash) ∧
    (annotateItem env maps it).duplicate_of =
      (match maps.dup.lookup it.src with
       | some c => some c
       | Option.none => it.duplicate_of) := by
  cases hh : maps.hash.lookup it.src <;> cases hd : maps.dup.lookup it.src <;>
    simp [annotateItem, h, hh, hd]

/-- Claim C3 (amended): for every group returned by the duplicate detector,
the member path that is smallest in Rust's `PathBuf` order -- componentwise
comparison of the `/`-separated path components, not byte order on the joined
path string -- is canonical: an eligible planned item carrying the canonical
path keeps `duplicate_of = None`, every eligible item carrying another member
path gets `duplicate_of = canonical`, and every eligible (Photo/Video) item
gets its content hash and its size attached regardless of duplicate status. -/
theorem mark_input_duplicates_spec (env : Env) (planned : List PlannedItem)
    (summary : PlanSummary) (items2 : List PlannedItem) (s2 : PlanSummary)
    (groups : List (String × List String))
    (hdup0 : ∀ it ∈ planned, it.duplicate_of = none)
    (hnd : (dedupSrcs planned).Nodup)
    (hsz : ∀ q ∈ dedupSrcs planned, (env.fileSize q).isSome = true)
    (hok : mark_input_duplicates env planned summary = .ok (items2, s2))
    (hg : find_exact_duplicates env.fileContent (dedupSrcs planned) = .ok groups) :
    (∀ hg2 ∈ groups, ∃ c, c ∈ hg2.2 ∧ (∀ q ∈ hg2.2, pathLe c q = true) ∧
      (∀ it2 ∈ items2, isDedupKind it2.kind = true → it2.src = c →
        it2.duplicate_of = none) ∧
      (∀ q ∈ hg2.2, q ≠ c → ∀ it2 ∈ items2, isDedupKind it2.kind = true →
        it2.src = q → it2.duplicate_of = some c)) ∧
    (∀ it2 ∈ items2, isDedupKind it2.kind = true →
      it2.content_hash = env.fileContent it2.src ∧
      (it2.content_hash).isSome = true ∧
      it2.size_bytes = env.fileSize it2.src ∧
      (it2.size_bytes).isSome = true) := by
  unfold mark_input_duplicates at hok
  rw [hg] at hok
  simp only [Except.ok.injEq, Prod.mk.injEq] at hok
  obtain ⟨hitems, _⟩ := hok
  have huniq := find_ok_group_uniq env.fileContent (dedupSrcs planned) groups hg
  have hkeys := find_ok_keys_nodup env.fileContent (dedupSrcs planned) groups hg
  have hfound := groups_fold_found env.fileContent groups huniq hkeys
  have hsrc_mem : ∀ it ∈ planned, isDedupKind it.kind = true →
      it.src ∈ dedupSrcs planned := by
    intro it hit hkind
    exact List.mem_map.mpr ⟨it, List.mem_filter.mpr ⟨hit, hkind⟩, rfl⟩
  have hmem2 : ∀ it2 ∈ items2, ∃ it ∈ planned,
      annotateItem env (dupMapsOf groups) it = it2 := by
    intro it2 h2
    rw [← hitems] at h2
    exact List.mem_map.mp h2
  constructor
  · intro hg2 hmem
    obtain ⟨hgfix, q0, hq0p, hq0c⟩ :=
      find_ok_group_mem env.fileContent (dedupSrcs planned) groups hg hg2 hmem
    have hq0g : q0 ∈ hg2.2 := by
      rw [hgfix]
      exact List.mem_filter.mpr ⟨hq0p, by simp [hq0c]⟩
    cases hsort : sortPaths hg2.2 with
    | nil =>
      exfalso
      have := (sortPaths_mem hg2.2 q0).mpr hq0g
      rw [hsort] at this
      cases this
    | cons c rest =>
      have hmin := sortPaths_head_min hg2.2 c rest hsort
      have hgnd : hg2.2.Nodup := by
        rw [hgfix]
        exact hnd.filter _
      have hsnd : (c :: rest).Nodup := by
        rw [← hsort]
        exact sortPaths_nodup _ hgnd
      refine ⟨c, hmin.1, hmin.2, ?_, ?_⟩
      · intro it2 hmem2i hkind hsrcc
        obtain ⟨it, hit, heq⟩ := hmem2 it2 hmem2i
        have hfields := annotateItem_fields env (dupMapsOf groups) it
        have hkind0 : isDedupKind it.kind = true := by
          rw [← heq, hfields.1] at hkind
          exact hkind
        have hsrc0 : it.src = c := by
          rw [← heq, hfields.2.1] at hsrcc
          exact hsrcc
        have hdupnone : (dupMapsOf groups).dup.lookup c = none := by
          rw [dupMapsOf_eq]
          rw [groups_fold_dup_preserve groups ⟨[], []⟩ c ?_]
          · rfl
          · intro hg3 hmem3 c3 rest3 hsort3 hcin
            have hcin2 : c ∈ hg3.2 := by
              refine (sortPaths_mem hg3.2 c).mp ?_
              rw [hsort3]
              exact List.mem_cons_of_mem _ hcin
            have e1 : env.fileContent c = some hg2.1 := huniq hg2 hmem c hmin.1
            have e2 : env.fileContent c = some hg3.1 := huniq hg3 hmem3 c hcin2
            have efst : hg3.1 = hg2.1 := by
              rw [e1] at e2
              exact (Option.some_inj.mp e2).symm
            have hg3fix := (find_ok_group_mem env.fileContent (dedupSrcs planned)
              groups hg hg3 hmem3).1
            have hgg : hg3.2 = hg2.2 := by
              rw [hg3fix, hgfix, efst]
            have hse : c3 :: rest3 = c :: rest := by
              rw [← hsort3, ← hsort, hgg]
            have hrest : rest3 = rest := (List.cons_eq_cons.mp hse).2
            exact (List.nodup_cons.mp hsnd).1 (hrest ▸ hcin)
        have hann := annotateItem_eq env (dupMapsOf groups) it hkind0
        rw [← heq, hann.2.2, hsrc0, hdupnone]
        exact hdup0 it hit
      · intro q hqg hqne it2 hmem2i hkind hsrcq
        obtain ⟨it, hit, heq⟩ := hmem2 it2 hmem2i
        have hfields := annotateItem_fields env (dupMapsOf groups) it
        have hkind0 : isDedupKind it.kind = true := by
          rw [← heq, hfields.1] at hkind
          exact hkind
        have hsrc0 : it.src = q := by
          rw [← heq, hfields.2.1] at hsrcq
          exact hsrcq
        have hqrest : q ∈ rest := by
          have hq2 : q ∈ c :: rest := by
            rw [← hsort]
            exact (sortPaths_mem hg2.2 q).mpr hqg
          rcases List.mem_cons.mp hq2 with he | hm
          · exact absurd he hqne
          · exact hm
        have hdupc : (dupMapsOf groups).dup.lookup q = some c := by
          rw [dupMapsOf_eq]
          exact (hfound hg2.1 hg2.2 hmem c rest hsort ⟨[], []⟩ q).1 hqrest
        have hann := annotateItem_eq env (dupMapsOf groups) it hkind0
        rw [← heq, hann.2.2, hsrc0, hdupc]
  · intro it2 hmem hkind
    obtain ⟨it, hit, heq⟩ := hmem2 it2 hmem
    have hfields := annotateItem_fields env (dupMapsOf groups) it
    have hkind0 : isDedupKind it.kind = true := by
      rw [← heq, hfields.1] at hkind
      exact hkind
    have hsrc0 : it2.src = it.src := by
      rw [← heq]
      exact hfields.2.1
    have hpm : it.src ∈ dedupSrcs planned := hsrc_mem it hit hkind0
    have hcs : (env.fileContent it.src).isSome = true :=
      (find_ok_shape env.fileContent (dedupSrcs planned) groups hg).2 it.src hpm
    obtain ⟨h, hch⟩ := Option.isSome_iff_exists.mp hcs
    have hmg := find_ok_mem_group env.fileContent (dedupSrcs planned) groups hg
      it.src hpm h hch
    cases hsort : sortPaths ((dedupSrcs planned).filter
        (fun q2 => env.fileContent q2 == some h)) with
    | nil =>
      exfalso
      have := (sortPaths_mem _ it.src).mpr hmg.2
      rw [hsort] at this
      cases this
    | cons c rest =>
      have hhash : (dupMapsOf groups).hash.lookup it.src = some h := by
        rw [dupMapsOf_eq]
        refine (hfound h _ hmg.1 c rest hsort ⟨[], []⟩ it.src).2 ?_
        rw [← hsort]
        exact (sortPaths_mem _ it.src).mpr hmg.2
      have hann := annotateItem_eq env (dupMapsOf groups) it hkind0
      refine ⟨?_, ?_, ?_, ?_⟩
      · rw [← heq, hann.2.1, hhash, hfields.2.1, hch]
      · rw [← heq, hann.2.1, hhash]
        rfl
      · rw [← heq, hann.1, hfields.2.1]
      · rw [← heq, hann.1]
        exact hsz it.src hpm

/-- The items fed into duplicate marking for the concrete scenario, before
back-annotation. -/
def witMarkPlanned : List PlannedItem :=
  [⟨.photo, .copy, "in/a.jpg", "out/a.jpg", none, .none, none, none, none⟩,
   ⟨.photo, .copy, "in/b.jpg", "out/b.jpg", none, .none, none, none, none⟩,
   ⟨.photo, .copy, "in/c.jpg", "out/c.jpg", none, .none, none, none, none⟩]

/-- The items after duplicate marking on the concrete scenario. -/
def witMarkItems2 : List PlannedItem :=
  [⟨.photo, .copy, "in/a.jpg", "out/a.jpg", none, .none, some 3, some "X", none⟩,
   ⟨.photo, .copy, "in/b.jpg", "out/b.jpg", none, .none, some 3, some "X",
     some "in/a.jpg"⟩,
   ⟨.photo, .copy, "in/c.jpg", "out/c.jpg", none, .none, some 7, some "Y", none⟩]

/-- The summary after duplicate marking on the concrete scenario. -/
def witMarkS2 : PlanSummary := ⟨0, 0, 0, 0, 0, 0, 0, 1, 0⟩

/-- The detector's groups on the concrete scenario. -/
def witGroups : List (String × List String) :=
  [("X", ["in/a.jpg", "in/b.jpg"]), ("Y", ["in/c.jpg"])]

theorem mark_input_duplicates_spec_witness :
    (∀ it2 ∈ witMarkItems2, isDedupKind it2.kind = true → it2.src = "in/a.jpg" →
      it2.duplicate_of = none) ∧
    (∀ it2 ∈ witMarkItems2, isDedupKind it2.kind = true → it2.src = "in/b.jpg" →
      it2.duplicate_of = some "in/a.jpg") ∧
    (∀ it2 ∈ witMarkItems2, isDedupKind it2.kind = true →
      it2.content_hash = witPlanEnv.fileContent it2.src ∧
      (it2.content_hash).isSome = true ∧
      it2.size_bytes = witPlanEnv.fileSize it2.src ∧
      (it2.size_bytes).isSome = true) := by
  have h := mark_input_duplicates_spec witPlanEnv witMarkPlanned PlanSummary.new
    witMarkItems2 witMarkS2 witGroups (by decide) (by decide) (by decide) rfl rfl
  obtain ⟨c, hcmem, hcmin, hcanon, hdups⟩ :=
    h.1 ("X", ["in/a.jpg", "in/b.jpg"]) (by decide)
  have hca : c = "in/a.jpg" := by
    rcases List.mem_cons.mp hcmem with h1 | h2
    · exact h1
    · have hle := hcmin "in/a.jpg" (by decide)
      rw [List.mem_singleton.mp h2] at hle
      exact absurd hle (by decide)
  subst hca
  exact ⟨hcanon, fun it2 hm hk hs => hdups "in/b.jpg" (by decide) (by decide) it2 hm hk hs,
    h.2⟩

/-- Environment for the C3 counterexample: two distinct paths with identical
content, so the detector groups them together. -/
def cex3Env : Env where
  openOk := fun _ => true
  exifData := fun _ => none
  probe := fun _ => .statusFail
  mtime := fun _ => none
  fileContent := fun s =>
    if s = "in.x/a.jpg" ∨ s = "in/a.jpg" then some "Z" else none
  fileSize := fun s =>
    if s = "in.x/a.jpg" ∨ s = "in/a.jpg" then some 1 else none
  dvdMainTitleVobs := fun _ => .ok []

/-- Planned items whose sources form one duplicate group on which
byte-lexicographic string order and `PathBuf` componentwise order disagree:
`"."` (0x2E) sorts before `"/"` (0x2F) bytewise, but `"in"` is a proper prefix
of `"in.x"` as a path component. -/
def cex3Planned : List PlannedItem :=
  [⟨.photo, .copy, "in.x/a.jpg", "out/x/a.jpg", none, .none, none, none, none⟩,
   ⟨.photo, .copy, "in/a.jpg", "out/a.jpg", none, .none, none, none, none⟩]

/-- `mark_input_duplicates` output items on the counterexample scenario. -/
def cex3Items : List PlannedItem :=
  [⟨.photo, .copy, "in.x/a.jpg", "out/x/a.jpg", none, .none, some 1, some "Z",
     some "in/a.jpg"⟩,
   ⟨.photo, .copy, "in/a.jpg", "out/a.jpg", none, .none, some 1, some "Z", none⟩]

/-- `mark_input_duplicates` output summary on the counterexample scenario. -/
def cex3Summary : PlanSummary := ⟨0, 0, 0, 0, 0, 0, 0, 1, 0⟩

/-- Counterexample to claim C3 as stated: in the group
`{"in.x/a.jpg", "in/a.jpg"}` the byte-lexicographically smallest path string
is `"in.x/a.jpg"`, yet the program -- which sorts the group with `PathBuf`'s
componentwise `Ord` -- selects `"in/a.jpg"` as canonical: the item with source
`"in.x/a.jpg"` comes out with `duplicate_of = some "in/a.jpg"` and the item
with source `"in/a.jpg"` keeps `duplicate_of = none`. -/
theorem mark_canonical_not_string_smallest_cex :
    strLe "in.x/a.jpg" "in/a.jpg" = true ∧
    ("in.x/a.jpg" : String) ≠ "in/a.jpg" ∧
    mark_input_duplicates cex3Env cex3Planned PlanSummary.new =
      .ok (cex3Items, cex3Summary) :=
  ⟨by decide, by decide, by rfl⟩

end MediaOrg
